import Mathlib

/-!
Diamond Miners: the game state engine of `game.c`.

A shallow embedding of `src/a2/game.c`.  The C globals (`playing_field`,
`visible`, the player and facing variables) become the fields of one record
that every operation takes and returns.  Calls to the external display routine
`update_square_colour` are recorded, in order, in the field `display`.

Machine integers are natural numbers; every `uint8_t` addition is reduced
modulo 256.  The two-dimensional arrays are functions of the two indices; the
operations only ever index them inside `WIDTH × HEIGHT` when the seed of a
search is in bounds.
-/

namespace DiamondMiners

/-! ## Constants of the missing headers -/

/-- Modelled from the spec: `game.h` is not among the sources; the grid is 16 wide. -/
def WIDTH : Nat := 16

/-- Modelled from the spec: `game.h` is not among the sources; the grid is 8 high. -/
def HEIGHT : Nat := 8

/-- Modelled from the spec: `display.h` is not among the sources; code 0 is the empty square. -/
def EMPTY_SQUARE : Nat := 0

/-- Modelled from the spec: `display.h` is not among the sources; code 3 is the breakable wall. -/
def BREAKABLE : Nat := 3

/-- Modelled from the spec: `display.h` is not among the sources; code 4 is the unbreakable wall. -/
def UNBREAKABLE : Nat := 4

/-- Modelled from the spec: `display.h` is not among the sources; code 5 is the diamond. -/
def DIAMOND : Nat := 5

/-- Modelled from the spec: `display.h` is not among the sources; the three display codes that
are not terrain (`PLAYER`, `FACING`, `UNDISCOVERED`) have no value in the sources and are
taken as parameters. -/
structure DisplayCodes where
  PLAYER : Nat
  FACING : Nat
  UNDISCOVERED : Nat

/-! ## The state -/

/-- One call `update_square_colour(x, y, code)`. -/
abbrev RenderCall := Nat × Nat × Nat

/-- The global variables of `game.c`, and the calls made to the display so far. -/
structure Game where
  playing_field : Nat → Nat → Nat
  visible : Nat → Nat → Nat
  player_x : Nat
  player_y : Nat
  facing_x : Nat
  facing_y : Nat
  facing_visible : Nat
  display : List RenderCall

/-- The assignment `a[x][y] = v`. -/
def write (a : Nat → Nat → Nat) (x y v : Nat) : Nat → Nat → Nat :=
  fun i j => if i = x ∧ j = y then v else a i j

/-- The external `update_square_colour(x, y, code)`: recorded, no effect on the game variables. -/
def update_square_colour (s : Game) (x y code : Nat) : Game :=
  { s with display := s.display ++ [(x, y, code)] }

def PLAYER_START_X : Nat := 0
def PLAYER_START_Y : Nat := 0
def FACING_START_X : Nat := 1
def FACING_START_Y : Nat := 0

/-- The table `starting_layout[HEIGHT][WIDTH]`, first row first. -/
def starting_layout : List (List Nat) :=
  [[0, 3, 0, 3, 0, 0, 0, 4, 4, 0, 0, 4, 0, 4, 0, 4],
   [0, 4, 0, 4, 0, 0, 0, 3, 4, 4, 3, 4, 0, 3, 0, 4],
   [0, 4, 0, 4, 4, 4, 4, 0, 3, 0, 0, 0, 0, 4, 0, 4],
   [5, 4, 0, 4, 0, 0, 3, 0, 0, 4, 0, 0, 0, 4, 0, 0],
   [4, 4, 3, 4, 5, 0, 4, 0, 0, 4, 3, 4, 0, 0, 4, 4],
   [0, 0, 0, 4, 4, 4, 4, 0, 4, 0, 0, 0, 4, 3, 0, 4],
   [0, 0, 0, 3, 0, 0, 3, 0, 3, 0, 3, 0, 3, 0, 0, 4],
   [0, 0, 0, 4, 0, 0, 3, 0, 4, 0, 0, 3, 3, 0, 5, 4]]

/-- The read `starting_layout[r][c]`. -/
def layout_at (r c : Nat) : Nat := (starting_layout.getD r []).getD c 0

def NUM_DIRECTIONS : Nat := 8

/-- The table `directions[NUM_DIRECTIONS][2]` of `uint8_t`: the four initialisers, with `-1`
stored as 255, and the four remaining rows zero. -/
def directions : List (Nat × Nat) :=
  [(0, 1), (0, 255), (1, 0), (255, 0), (0, 0), (0, 0), (0, 0), (0, 0)]

/-! ## The operations -/

/-- The body of the two nested loops of `initialise_game_state` for one `(x, y)`. -/
def init_square (s : Game) (x y : Nat) : Game :=
  { s with
    playing_field := write s.playing_field x y (layout_at (HEIGHT - 1 - y) x)
    visible := write s.visible x y 0 }

/-- The function `initialise_game_state`. -/
def initialise_game_state (s : Game) : Game :=
  let s1 : Game :=
    { s with
      player_x := PLAYER_START_X
      player_y := PLAYER_START_Y
      facing_x := FACING_START_X
      facing_y := FACING_START_Y
      facing_visible := 1 }
  (List.range WIDTH).foldl
    (fun s x => (List.range HEIGHT).foldl (fun s y => init_square s x y) s) s1

/-- The function `in_bounds`, on two `uint8_t` values. -/
def in_bounds (x y : Nat) : Nat :=
  if 0 ≤ x ∧ x < WIDTH ∧ 0 ≤ y ∧ y < HEIGHT then 1 else 0

/-- The function `get_object_at`. -/
def get_object_at (s : Game) (x y : Nat) : Nat :=
  if in_bounds x y = 0 then UNBREAKABLE else s.playing_field x y

/-- The function `flash_facing`. -/
def flash_facing (dc : DisplayCodes) (s : Game) : Game :=
  if in_bounds s.facing_x s.facing_y ≠ 0 then
    let s1 :=
      if s.facing_visible ≠ 0 then
        let piece_at_cursor := get_object_at s s.facing_x s.facing_y
        update_square_colour s s.facing_x s.facing_y piece_at_cursor
      else
        update_square_colour s s.facing_x s.facing_y dc.FACING
    { s1 with facing_visible := (1 + 256 - s1.facing_visible % 256) % 256 }
  else s

/-- The function `move_player`: its body in `game.c` holds no statement. -/
def move_player (s : Game) (_dx _dy : Nat) : Game := s

/-- The function `is_game_over`. -/
def is_game_over (_s : Game) : Nat := 0

/-- One turn of the loop over `directions` in `discoverable_dfs`; `visit` is the recursive
call. -/
def dfs_step (visit : Game → Nat → Nat → Option Game) (x y : Nat) (s : Game)
    (d : Nat × Nat) : Option Game :=
  let x_adj := (x + d.1) % 256
  let y_adj := (y + d.2) % 256
  if in_bounds x_adj y_adj ≠ 0 ∧ s.visible x_adj y_adj = 0 then visit s x_adj y_adj
  else some s

/-- The loop over `directions` in `discoverable_dfs`. -/
def dfs_loop (visit : Game → Nat → Nat → Option Game) (x y : Nat) :
    List (Nat × Nat) → Game → Option Game
  | [], s => some s
  | d :: ds, s =>
    match dfs_step visit x y s d with
    | none => none
    | some s1 => dfs_loop visit x y ds s1

/-- The function `discoverable_dfs`, with a bound on the depth of the recursion: `none` when
the bound is reached. -/
def dfs : Nat → Game → Nat → Nat → Option Game
  | 0, _, _, _ => none
  | fuel + 1, s, x, y =>
    let s1 : Game := { s with visible := write s.visible x y 1 }
    let object_here := get_object_at s1 x y
    let s2 := update_square_colour s1 x y object_here
    if object_here = EMPTY_SQUARE ∨ object_here = DIAMOND then
      dfs_loop (dfs fuel) x y directions s2
    else some s2

/-- The function `discoverable_dfs`: the recursion may nest as deep as there are squares. -/
def discoverable_dfs (s : Game) (x y : Nat) : Option Game :=
  dfs (WIDTH * HEIGHT) s x y

/-- The body of the two nested loops of `initialise_game_display` for one `(x, y)`. -/
def undiscover_square (dc : DisplayCodes) (s : Game) (x y : Nat) : Game :=
  update_square_colour s x y dc.UNDISCOVERED

/-- The two nested loops of `initialise_game_display`: every square rendered undiscovered. -/
def undiscovered_all (dc : DisplayCodes) (s : Game) : Game :=
  (List.range WIDTH).foldl
    (fun s x => (List.range HEIGHT).foldl (fun s y => undiscover_square dc s x y) s) s

/-- The function `initialise_game_display`.  The external `initialise_display` touches no
game variable and is not a call of `update_square_colour`. -/
def initialise_game_display (dc : DisplayCodes) (s : Game) : Option Game :=
  let s1 := undiscovered_all dc s
  match discoverable_dfs s1 s1.player_x s1.player_y with
  | none => none
  | some s2 =>
    let s3 := update_square_colour s2 s2.player_x s2.player_y dc.PLAYER
    some (update_square_colour s3 s3.facing_x s3.facing_y dc.FACING)

/-- The function `initialise_game`. -/
def initialise_game (dc : DisplayCodes) (s : Game) : Option Game :=
  initialise_game_display dc (initialise_game_state s)

/-! ## Vocabulary of the properties -/

/-- A square of the grid, `(x, y)`. -/
abbrev Cell := Nat × Nat

/-- The square lies inside the grid. -/
def inb (c : Cell) : Prop := c.1 < WIDTH ∧ c.2 < HEIGHT

instance (c : Cell) : Decidable (inb c) := by unfold inb; infer_instance

/-- The terrain of the square is open: `EMPTY_SQUARE` or `DIAMOND`. -/
def is_open (s : Game) (c : Cell) : Prop :=
  get_object_at s c.1 c.2 = EMPTY_SQUARE ∨ get_object_at s c.1 c.2 = DIAMOND

instance (s : Game) (c : Cell) : Decidable (is_open s c) := by unfold is_open; infer_instance

/-- The two squares are one orthogonal step apart. -/
def adj (a b : Cell) : Prop :=
  (a.1 = b.1 ∧ (a.2 + 1 = b.2 ∨ b.2 + 1 = a.2)) ∨ (a.2 = b.2 ∧ (a.1 + 1 = b.1 ∨ b.1 + 1 = a.1))

instance (a b : Cell) : Decidable (adj a b) := by unfold adj; infer_instance

/-- The open squares reached from `a` by orthogonal steps through in-bounds open squares. -/
inductive OpenPath (s : Game) (a : Cell) : Cell → Prop
  | start : inb a → is_open s a → OpenPath s a a
  | step {b c : Cell} : OpenPath s a b → adj b c → inb c → is_open s c → OpenPath s a c

/-- The in-bounds squares that are not open and touch the open region of `a` orthogonally. -/
def Boundary (s : Game) (a c : Cell) : Prop :=
  inb c ∧ ¬ is_open s c ∧ ∃ b, OpenPath s a b ∧ adj b c

/-- The squares reached from `a` by orthogonal in-bounds steps, every square left being open. -/
inductive Conn (s : Game) (a : Cell) : Cell → Prop
  | start : Conn s a a
  | step {b c : Cell} : Conn s a b → is_open s b → adj b c → inb c → Conn s a c

/-- The array `v` with the flag of every square of `l` set to 1. -/
def marks (v : Nat → Nat → Nat) (l : List Cell) : Nat → Nat → Nat :=
  fun i j => if (i, j) ∈ l then 1 else v i j

/-- The squares of the grid whose flag is still 0. -/
def unseen (s : Game) : Finset Cell :=
  (Finset.range WIDTH ×ˢ Finset.range HEIGHT).filter (fun c => s.visible c.1 c.2 = 0)

/-- Every open square of `l` has all its in-bounds orthogonal neighbours discovered. -/
def Closed (s : Game) (l : List Cell) : Prop :=
  ∀ c ∈ l, is_open s c → ∀ d, adj c d → inb d → s.visible d.1 d.2 ≠ 0

/-- The state `t` is `s` after a search that entered exactly the squares of `l`, in that
order, all of them connected to `seed`. -/
structure Grown (s : Game) (seed : Cell) (l : List Cell) (t : Game) : Prop where
  field : t.playing_field = s.playing_field
  px : t.player_x = s.player_x
  py : t.player_y = s.player_y
  fx : t.facing_x = s.facing_x
  fy : t.facing_y = s.facing_y
  fv : t.facing_visible = s.facing_visible
  shown : t.display = s.display ++ l.map (fun c => (c.1, c.2, get_object_at s c.1 c.2))
  seen : t.visible = marks s.visible l
  once : l.Nodup
  inside : ∀ c ∈ l, inb c
  fresh : ∀ c ∈ l, c ≠ seed → s.visible c.1 c.2 = 0
  conn : ∀ c ∈ l, Conn s seed c

/-- The globals as C zero-initialises them: every square `EMPTY_SQUARE`, nothing discovered,
nothing rendered. -/
def blank_game : Game := ⟨fun _ _ => 0, fun _ _ => 0, 0, 0, 0, 0, 0, []⟩

/-- A grid whose only open square is the corner `(0, 0)`; nothing discovered yet. -/
def corner_game : Game :=
  ⟨fun x y => if x = 0 ∧ y = 0 then EMPTY_SQUARE else UNBREAKABLE, fun _ _ => 0, 0, 0, 1, 0, 1, []⟩

/-- The read `a[x][y]` of a `WIDTH × HEIGHT` array: `none` outside the array. -/
def read (a : Nat → Nat → Nat) (x y : Nat) : Option Nat :=
  if x < WIDTH ∧ y < HEIGHT then some (a x y) else none

/-- The function `get_object_at` with the array read checked. -/
def get_object_at_checked (s : Game) (x y : Nat) : Option Nat :=
  if in_bounds x y = 0 then some UNBREAKABLE else read s.playing_field x y

/-- The grid of `starting_layout` as `initialise_game_state` lays it out, with the player and
the facing square at their start, nothing discovered and nothing rendered. -/
def layout_game : Game :=
  ⟨fun x y => layout_at (HEIGHT - 1 - y) x, fun _ _ => 0,
    PLAYER_START_X, PLAYER_START_Y, FACING_START_X, FACING_START_Y, 1, []⟩

/-- The fifteen squares around the start: the open 3 × 3 block and the walls that bound it. -/
def start_region : List Cell :=
  [(0, 0), (1, 0), (2, 0), (3, 0), (0, 1), (1, 1), (2, 1), (3, 1),
   (0, 2), (1, 2), (2, 2), (3, 2), (0, 3), (1, 3), (2, 3)]

/-- The four squares one orthogonal step away from `b` (with truncated subtraction). -/
def nbrs (b : Cell) : List Cell :=
  [(b.1, b.2 + 1), (b.1, b.2 - 1), (b.1 + 1, b.2), (b.1 - 1, b.2)]

/-- Every square of `cs` is in bounds and one step from an open square listed before it or
in `acc`. -/
def chain (s : Game) : List Cell → List Cell → Bool
  | _, [] => true
  | acc, c :: cs =>
    decide (inb c ∧ ∃ b ∈ acc, is_open s b ∧ adj b c) && chain s (c :: acc) cs

/-- The state `t` is `s` with the squares selected by `p` set from the layout and
undiscovered, all else kept. -/
structure Inited (p : Nat → Nat → Prop) (s t : Game) : Prop where
  field_in : ∀ i j, p i j → t.playing_field i j = layout_at (HEIGHT - 1 - j) i
  field_out : ∀ i j, ¬ p i j → t.playing_field i j = s.playing_field i j
  seen_in : ∀ i j, p i j → t.visible i j = 0
  seen_out : ∀ i j, ¬ p i j → t.visible i j = s.visible i j
  px : t.player_x = s.player_x
  py : t.player_y = s.player_y
  fx : t.facing_x = s.facing_x
  fy : t.facing_y = s.facing_y
  fv : t.facing_visible = s.facing_visible
  shown : t.display = s.display

/-- The states `s` and `t` hold the same game variables; only the display calls may differ. -/
structure SameVars (s t : Game) : Prop where
  field : t.playing_field = s.playing_field
  seen : t.visible = s.visible
  px : t.player_x = s.player_x
  py : t.player_y = s.player_y
  fx : t.facing_x = s.facing_x
  fy : t.facing_y = s.facing_y
  fv : t.facing_visible = s.facing_visible

/-- The state right after `discoverable_dfs` has marked and rendered its own square. -/
def entered (s : Game) (x y : Nat) : Game :=
  update_square_colour { s with visible := write s.visible x y 1 } x y
    (get_object_at { s with visible := write s.visible x y 1 } x y)

/-- The code a square shows on the display: the last code that `update_square_colour` was
given for it, `none` when it was never rendered. -/
def shown_code : List RenderCall → Nat → Nat → Option Nat
  | [], _, _ => none
  | r :: rs, x, y =>
    match shown_code rs x y with
    | some c => some c
    | none => if r.1 = x ∧ r.2.1 = y then some r.2.2 else none

/-- Some values for the three display codes that are not terrain. -/
def sample_codes : DisplayCodes := ⟨1, 2, 6⟩

/-- The state `s` is what `initialise_game` returns from some earlier state. -/
def Started (dc : DisplayCodes) (s : Game) : Prop :=
  ∃ s0, initialise_game dc s0 = some s

/-- The states the game can be in: what `initialise_game` returns, and what `move_player`
(any arguments), `flash_facing` and `discoverable_dfs` on an in-bounds seed make of such a
state. -/
inductive Reachable (dc : DisplayCodes) : Game → Prop
  | init {s : Game} : Started dc s → Reachable dc s
  | move {s : Game} (dx dy : Nat) : Reachable dc s → Reachable dc (move_player s dx dy)
  | flash {s : Game} : Reachable dc s → Reachable dc (flash_facing dc s)
  | search {s u : Game} (x y : Nat) : Reachable dc s → x < WIDTH → y < HEIGHT →
      discoverable_dfs s x y = some u → Reachable dc u

/-- The discovered set is closed: every discovered square of the grid whose terrain is open
has all its in-bounds orthogonal neighbours discovered. -/
def closed_flags (s : Game) : Prop :=
  ∀ c : Cell, inb c → s.visible c.1 c.2 ≠ 0 → is_open s c →
    ∀ d : Cell, adj c d → inb d → s.visible d.1 d.2 ≠ 0

/-! ### The search with checked array indices -/

/-- How a run with checked indices ends: with a state, on an index outside an array, or with
the recursion deeper than the fuel allows. -/
inductive Checked where
  | ok : Game → Checked
  | out_of_range : Checked
  | out_of_fuel : Checked

/-- A run without index checks, seen as a checked run. -/
def Checked.of_run : Option Game → Checked
  | some u => Checked.ok u
  | none => Checked.out_of_fuel

/-- The assignment `a[x][y] = v` into a `WIDTH × HEIGHT` array: `none` outside the array. -/
def write_checked (a : Nat → Nat → Nat) (x y v : Nat) : Option (Nat → Nat → Nat) :=
  if x < WIDTH ∧ y < HEIGHT then some (write a x y v) else none

/-- One turn of the loop of `discoverable_dfs`, the read of `visible` checked; as in C, the
read happens only when `in_bounds` has answered 1. -/
def dfs_step_checked (visit : Game → Nat → Nat → Checked) (x y : Nat) (s : Game)
    (d : Nat × Nat) : Checked :=
  let x_adj := (x + d.1) % 256
  let y_adj := (y + d.2) % 256
  if in_bounds x_adj y_adj ≠ 0 then
    match read s.visible x_adj y_adj with
    | none => Checked.out_of_range
    | some v => if v = 0 then visit s x_adj y_adj else Checked.ok s
  else Checked.ok s

/-- The loop of `discoverable_dfs` with checked indices. -/
def dfs_loop_checked (visit : Game → Nat → Nat → Checked) (x y : Nat) :
    List (Nat × Nat) → Game → Checked
  | [], s => Checked.ok s
  | d :: ds, s =>
    match dfs_step_checked visit x y s d with
    | Checked.ok s1 => dfs_loop_checked visit x y ds s1
    | Checked.out_of_range => Checked.out_of_range
    | Checked.out_of_fuel => Checked.out_of_fuel

/-- The function `discoverable_dfs` with every read and write of `visible` and
`playing_field` checked. -/
def dfs_checked : Nat → Game → Nat → Nat → Checked
  | 0, _, _, _ => Checked.out_of_fuel
  | fuel + 1, s, x, y =>
    match write_checked s.visible x y 1 with
    | none => Checked.out_of_range
    | some v1 =>
      let s1 : Game := { s with visible := v1 }
      match get_object_at_checked s1 x y with
      | none => Checked.out_of_range
      | some object_here =>
        let s2 := update_square_colour s1 x y object_here
        if object_here = EMPTY_SQUARE ∨ object_here = DIAMOND then
          dfs_loop_checked (dfs_checked fuel) x y directions s2
        else Checked.ok s2

/-! ### The reference search over four integer offsets -/

/-- The four orthogonal offsets, as integers, in the order of the table. -/
def four_offsets : List (Int × Int) := [(0, 1), (0, -1), (1, 0), (-1, 0)]

/-- One turn of the reference loop: a neighbour outside `0 ≤ x < WIDTH`, `0 ≤ y < HEIGHT` is
skipped, one not yet discovered is searched. -/
def ref_step (visit : Game → Nat → Nat → Option Game) (x y : Nat) (s : Game)
    (d : Int × Int) : Option Game :=
  let xn : Int := (x : Int) + d.1
  let yn : Int := (y : Int) + d.2
  if 0 ≤ xn ∧ xn < (WIDTH : Int) ∧ 0 ≤ yn ∧ yn < (HEIGHT : Int) ∧
      s.visible xn.toNat yn.toNat = 0 then
    visit s xn.toNat yn.toNat
  else some s

/-- The reference loop over a list of integer offsets. -/
def ref_loop (visit : Game → Nat → Nat → Option Game) (x y : Nat) :
    List (Int × Int) → Game → Option Game
  | [], s => some s
  | d :: ds, s =>
    match ref_step visit x y s d with
    | none => none
    | some s1 => ref_loop visit x y ds s1

/-- The reference search: as `discoverable_dfs`, but over the four integer offsets only. -/
def dfs_ref : Nat → Game → Nat → Nat → Option Game
  | 0, _, _, _ => none
  | fuel + 1, s, x, y =>
    let s1 : Game := { s with visible := write s.visible x y 1 }
    let object_here := get_object_at s1 x y
    let s2 := update_square_colour s1 x y object_here
    if object_here = EMPTY_SQUARE ∨ object_here = DIAMOND then
      ref_loop (dfs_ref fuel) x y four_offsets s2
    else some s2

/-- The code is one of the four terrain codes. -/
def is_terrain (k : Nat) : Prop :=
  k = EMPTY_SQUARE ∨ k = BREAKABLE ∨ k = UNBREAKABLE ∨ k = DIAMOND

instance (k : Nat) : Decidable (is_terrain k) := by unfold is_terrain; infer_instance

/-- The four initialised rows of `directions`, each with the integer offset it stands for. -/
def paired_offsets : List ((Nat × Nat) × (Int × Int)) :=
  [((0, 1), (0, 1)), ((0, 255), (0, -1)), ((1, 0), (1, 0)), ((255, 0), (-1, 0))]

/-! ## Basic facts -/

theorem in_bounds_ne_zero (x y : Nat) : in_bounds x y ≠ 0 ↔ inb (x, y) := by
  unfold in_bounds inb
  by_cases h : 0 ≤ x ∧ x < WIDTH ∧ 0 ≤ y ∧ y < HEIGHT
  · simp [h, h.2.1, h.2.2.2]
  · simp only [if_neg h]
    constructor
    · intro h0; exact absurd rfl h0
    · intro h1; exact absurd ⟨Nat.zero_le _, h1.1, Nat.zero_le _, h1.2⟩ h

theorem in_bounds_eq_zero (x y : Nat) : in_bounds x y = 0 ↔ ¬ inb (x, y) := by
  rw [← in_bounds_ne_zero]; simp

theorem get_object_at_congr {s t : Game} (h : t.playing_field = s.playing_field) (x y : Nat) :
    get_object_at t x y = get_object_at s x y := by
  unfold get_object_at; rw [h]

theorem is_open_congr {s t : Game} (h : t.playing_field = s.playing_field) (c : Cell) :
    is_open t c ↔ is_open s c := by
  unfold is_open; rw [get_object_at_congr h]

theorem is_open_inb {s : Game} {c : Cell} (h : is_open s c) : inb c := by
  by_contra hc
  have h0 : in_bounds c.1 c.2 = 0 := (in_bounds_eq_zero _ _).2 hc
  unfold is_open get_object_at at h
  rw [if_pos h0] at h
  revert h; decide

theorem Conn.congr {s t : Game} (h : t.playing_field = s.playing_field) {a c : Cell}
    (hc : Conn t a c) : Conn s a c := by
  induction hc with
  | start => exact Conn.start
  | step _ ho ha hi ih => exact Conn.step ih ((is_open_congr h _).1 ho) ha hi

theorem Conn.trans {s : Game} {a b c : Cell} (hab : Conn s a b) (hbc : Conn s b c) :
    Conn s a c := by
  induction hbc with
  | start => exact hab
  | step _ ho ha hi ih => exact Conn.step ih ho ha hi

theorem marks_nil (v : Nat → Nat → Nat) : marks v [] = v := by
  funext i j; simp [marks]

theorem marks_append (v : Nat → Nat → Nat) (l m : List Cell) :
    marks (marks v l) m = marks v (l ++ m) := by
  funext i j
  simp only [marks, List.mem_append]
  by_cases h1 : (i, j) ∈ m
  · simp [h1]
  · by_cases h2 : (i, j) ∈ l <;> simp [h1, h2]

theorem marks_ne_zero {v : Nat → Nat → Nat} {i j : Nat} (l : List Cell) (h : v i j ≠ 0) :
    marks v l i j ≠ 0 := by
  unfold marks; split
  · exact Nat.one_ne_zero
  · exact h

theorem marks_mem {v : Nat → Nat → Nat} {l : List Cell} {c : Cell} (h : c ∈ l) :
    marks v l c.1 c.2 = 1 := by
  unfold marks; rw [if_pos h]

theorem marks_eq_zero {v : Nat → Nat → Nat} {l : List Cell} {i j : Nat}
    (h : marks v l i j = 0) : (i, j) ∉ l ∧ v i j = 0 := by
  unfold marks at h
  by_cases hm : (i, j) ∈ l
  · rw [if_pos hm] at h; exact absurd h Nat.one_ne_zero
  · rw [if_neg hm] at h; exact ⟨hm, h⟩

theorem write_one (v : Nat → Nat → Nat) (x y : Nat) : write v x y 1 = marks v [(x, y)] := by
  funext i j
  simp [write, marks]

/-- The squares named by the direction table from an in-bounds square are the square itself
or an orthogonal neighbour. -/
theorem directions_sound {x y : Nat} (h : inb (x, y)) {d : Nat × Nat} (hd : d ∈ directions)
    (hi : inb ((x + d.1) % 256, (y + d.2) % 256)) :
    ((x + d.1) % 256, (y + d.2) % 256) = (x, y) ∨
      adj (x, y) ((x + d.1) % 256, (y + d.2) % 256) := by
  simp only [inb, WIDTH, HEIGHT] at h hi
  simp only [directions, List.mem_cons, List.mem_singleton, List.not_mem_nil, or_false] at hd
  simp only [adj, Prod.mk.injEq]
  rcases hd with rfl | rfl | rfl | rfl | rfl | rfl | rfl | rfl <;> simp only at hi ⊢ <;> omega

/-- Every in-bounds orthogonal neighbour of an in-bounds square is named by the table. -/
theorem directions_complete {x y : Nat} (h : inb (x, y)) {c : Cell} (ha : adj (x, y) c)
    (hi : inb c) : ∃ d ∈ directions, c = ((x + d.1) % 256, (y + d.2) % 256) := by
  obtain ⟨a, b⟩ := c
  simp only [inb, WIDTH, HEIGHT] at h hi
  simp only [adj] at ha
  rcases ha with ⟨h1, h2 | h2⟩ | ⟨h1, h2 | h2⟩
  · exact ⟨(0, 1), by simp [directions], by simp only [Prod.mk.injEq]; omega⟩
  · exact ⟨(0, 255), by simp [directions], by simp only [Prod.mk.injEq]; omega⟩
  · exact ⟨(1, 0), by simp [directions], by simp only [Prod.mk.injEq]; omega⟩
  · exact ⟨(255, 0), by simp [directions], by simp only [Prod.mk.injEq]; omega⟩

/-! ## The search: what one call does -/

theorem Grown.extend {s t u : Game} {seed c : Cell} {l m : List Cell}
    (h1 : Grown s seed l t) (h2 : Grown t c m u) (hc0 : t.visible c.1 c.2 = 0)
    (hconn : Conn s seed c) : Grown s seed (l ++ m) u := by
  have hz : ∀ a ∈ m, t.visible a.1 a.2 = 0 := by
    intro a ha
    by_cases hac : a = c
    · rw [hac]; exact hc0
    · exact h2.fresh a ha hac
  have hgo : (fun a : Cell => (a.1, a.2, get_object_at t a.1 a.2)) =
      fun a : Cell => (a.1, a.2, get_object_at s a.1 a.2) := by
    funext a; rw [get_object_at_congr h1.field]
  refine ⟨h2.field.trans h1.field, h2.px.trans h1.px, h2.py.trans h1.py, h2.fx.trans h1.fx,
    h2.fy.trans h1.fy, h2.fv.trans h1.fv, ?_, ?_, ?_, ?_, ?_, ?_⟩
  · rw [h2.shown, h1.shown, List.map_append, List.append_assoc, hgo]
  · rw [h2.seen, h1.seen, marks_append]
  · refine List.nodup_append.2 ⟨h1.once, h2.once, ?_⟩
    intro a hal ham
    have h0 := hz a ham
    rw [h1.seen, marks_mem hal] at h0
    exact Nat.one_ne_zero h0
  · intro a ha
    rcases List.mem_append.1 ha with h | h
    · exact h1.inside a h
    · exact h2.inside a h
  · intro a ha hne
    rcases List.mem_append.1 ha with h | h
    · exact h1.fresh a h hne
    · have h0 := hz a h
      rw [h1.seen] at h0
      exact (marks_eq_zero h0).2
  · intro a ha
    rcases List.mem_append.1 ha with h | h
    · exact h1.conn a h
    · exact hconn.trans ((h2.conn a h).congr h1.field)

theorem Grown.flags_kept {s t : Game} {seed : Cell} {l : List Cell} (h : Grown s seed l t)
    {i j : Nat} (hv : s.visible i j ≠ 0) : t.visible i j ≠ 0 := by
  rw [h.seen]; exact marks_ne_zero l hv

theorem Grown.unseen_subset {s t : Game} {seed : Cell} {l : List Cell} (h : Grown s seed l t) :
    unseen t ⊆ unseen s := by
  intro c hc
  simp only [unseen, Finset.mem_filter] at hc ⊢
  refine ⟨hc.1, ?_⟩
  by_contra h0
  exact h.flags_kept h0 hc.2

theorem Closed.carry {s t : Game} {l : List Cell} (h : Closed s l)
    (hf : t.playing_field = s.playing_field)
    (hv : ∀ i j, s.visible i j ≠ 0 → t.visible i j ≠ 0) : Closed t l := by
  intro c hc ho d had hd
  exact hv _ _ (h c hc ((is_open_congr hf c).1 ho) d had hd)

theorem Closed.join {s : Game} {l m : List Cell} (h1 : Closed s l) (h2 : Closed s m) :
    Closed s (l ++ m) := by
  intro c hc
  rcases List.mem_append.1 hc with h | h
  · exact h1 c h
  · exact h2 c h

theorem mem_unseen {s : Game} {c : Cell} (hi : inb c) (h0 : s.visible c.1 c.2 = 0) :
    c ∈ unseen s := by
  simp only [unseen, Finset.mem_filter, Finset.mem_product, Finset.mem_range]
  exact ⟨hi, h0⟩

/-- The loop over the direction table, given what a recursive call does. -/
theorem dfs_loop_spec (n : Nat) (visit : Game → Nat → Nat → Option Game)
    (hvisit : ∀ (t : Game) (c : Cell), inb c → t.visible c.1 c.2 = 0 → (unseen t).card ≤ n →
      ∃ u l, visit t c.1 c.2 = some u ∧ Grown t c (c :: l) u ∧ Closed u (c :: l))
    {s : Game} {x y : Nat} (hxy : inb (x, y)) (hopen : is_open s (x, y)) :
    ∀ (ds : List (Nat × Nat)), (∀ d ∈ ds, d ∈ directions) → ∀ (t : Game) (l : List Cell),
      Grown s (x, y) ((x, y) :: l) t → Closed t l → (unseen t).card ≤ n →
      ∃ u m, dfs_loop visit x y ds t = some u ∧ Grown s (x, y) ((x, y) :: m) u ∧ Closed u m ∧
        (∀ i j, t.visible i j ≠ 0 → u.visible i j ≠ 0) ∧
        ∀ d ∈ ds, inb ((x + d.1) % 256, (y + d.2) % 256) →
          u.visible ((x + d.1) % 256) ((y + d.2) % 256) ≠ 0 := by
  intro ds
  induction ds with
  | nil =>
    intro _ t l hg hc _
    exact ⟨t, l, rfl, hg, hc, fun _ _ h => h, fun d hd => absurd hd (List.not_mem_nil d)⟩
  | cons d ds ih =>
    intro hds t l hg hc hn
    have hds1 : ∀ e ∈ ds, e ∈ directions := fun e he => hds e (List.mem_cons_of_mem d he)
    by_cases hguard : in_bounds ((x + d.1) % 256) ((y + d.2) % 256) ≠ 0 ∧
        t.visible ((x + d.1) % 256) ((y + d.2) % 256) = 0
    · have hin : inb ((x + d.1) % 256, (y + d.2) % 256) := (in_bounds_ne_zero _ _).1 hguard.1
      obtain ⟨u, l2, hrun, hg2, hc2⟩ :=
        hvisit t ((x + d.1) % 256, (y + d.2) % 256) hin hguard.2 hn
      have hadj : adj (x, y) ((x + d.1) % 256, (y + d.2) % 256) := by
        rcases directions_sound hxy (hds d (List.mem_cons_self d ds)) hin with h | h
        · exfalso
          have h1 : t.visible x y = 1 := by
            rw [hg.seen]; exact marks_mem (c := (x, y)) (List.mem_cons_self _ _)
          have h0 := hguard.2
          rw [Prod.mk.injEq] at h
          rw [h.1, h.2, h1] at h0
          exact Nat.one_ne_zero h0
        · exact h
      have hconn : Conn s (x, y) ((x + d.1) % 256, (y + d.2) % 256) :=
        Conn.step Conn.start hopen hadj hin
      have hg3 := hg.extend hg2 hguard.2 hconn
      have hfu : u.playing_field = t.playing_field := hg2.field
      have hc3 : Closed u (l ++ ((x + d.1) % 256, (y + d.2) % 256) :: l2) :=
        (hc.carry hfu (fun _ _ h => hg2.flags_kept h)).join hc2
      have hn3 : (unseen u).card ≤ n :=
        le_trans (Finset.card_le_card hg2.unseen_subset) hn
      obtain ⟨w, m, hrun2, hg4, hc4, hmono, hnb⟩ := ih hds1 u _ hg3 hc3 hn3
      refine ⟨w, m, ?_, hg4, hc4, fun i j h => hmono i j (hg2.flags_kept h), ?_⟩
      · simp only [dfs_loop, dfs_step, if_pos hguard]
        rw [hrun]
        exact hrun2
      · intro e he hie
        rcases List.mem_cons.1 he with h | h
        · rw [h]
          apply hmono
          rw [hg2.seen,
            marks_mem (c := ((x + d.1) % 256, (y + d.2) % 256)) (List.mem_cons_self _ _)]
          exact Nat.one_ne_zero
        · exact hnb e h hie
    · obtain ⟨w, m, hrun2, hg4, hc4, hmono, hnb⟩ := ih hds1 t l hg hc hn
      refine ⟨w, m, ?_, hg4, hc4, hmono, ?_⟩
      · simp only [dfs_loop, dfs_step, if_neg hguard]
        exact hrun2
      · intro e he hie
        rcases List.mem_cons.1 he with h | h
        · rw [h]
          apply hmono
          intro h0
          rw [h] at hie
          exact hguard ⟨(in_bounds_ne_zero _ _).2 hie, h0⟩
        · exact hnb e h hie

theorem dfs_succ (fuel : Nat) (s : Game) (x y : Nat) :
    dfs (fuel + 1) s x y =
      if get_object_at s x y = EMPTY_SQUARE ∨ get_object_at s x y = DIAMOND then
        dfs_loop (dfs fuel) x y directions (entered s x y)
      else some (entered s x y) := rfl

theorem entered_grown (s : Game) {x y : Nat} (hxy : inb (x, y)) :
    Grown s (x, y) [(x, y)] (entered s x y) := by
  refine ⟨rfl, rfl, rfl, rfl, rfl, rfl, rfl, write_one _ _ _, List.nodup_singleton _, ?_, ?_, ?_⟩
  · intro c hc; rw [List.mem_singleton.1 hc]; exact hxy
  · intro c hc hne; exact absurd (List.mem_singleton.1 hc) hne
  · intro c hc; rw [List.mem_singleton.1 hc]; exact Conn.start

theorem unseen_entered (s : Game) (x y : Nat) :
    unseen (entered s x y) ⊆ (unseen s).erase (x, y) := by
  intro c hc
  simp only [unseen, Finset.mem_filter, Finset.mem_erase] at hc ⊢
  have h0 : write s.visible x y 1 c.1 c.2 = 0 := hc.2
  rw [write_one] at h0
  have h1 := marks_eq_zero h0
  refine ⟨?_, hc.1, h1.2⟩
  intro hcx
  apply h1.1
  rw [← hcx]
  exact List.mem_singleton_self c

/-- What one call of the search does, given fuel for the squares still undiscovered: it
returns, having entered once each square of a list that starts with the seed, all connected
to the seed, and every open square it entered has its neighbours discovered. -/
theorem dfs_spec : ∀ (fuel : Nat) (s : Game) (x y : Nat), inb (x, y) →
    ((unseen s).erase (x, y)).card < fuel →
    ∃ u l, dfs fuel s x y = some u ∧ Grown s (x, y) ((x, y) :: l) u ∧
      Closed u ((x, y) :: l) := by
  intro fuel
  induction fuel with
  | zero => intro s x y _ h; exact absurd h (Nat.not_lt_zero _)
  | succ fuel ih =>
    intro s x y hxy hfuel
    have hg0 := entered_grown s hxy
    have hn0 : (unseen (entered s x y)).card ≤ fuel :=
      le_trans (Finset.card_le_card (unseen_entered s x y)) (Nat.lt_succ_iff.1 hfuel)
    rw [dfs_succ]
    by_cases hopen : get_object_at s x y = EMPTY_SQUARE ∨ get_object_at s x y = DIAMOND
    · rw [if_pos hopen]
      have hvisit : ∀ (t : Game) (c : Cell), inb c → t.visible c.1 c.2 = 0 →
          (unseen t).card ≤ fuel →
          ∃ u l, dfs fuel t c.1 c.2 = some u ∧ Grown t c (c :: l) u ∧ Closed u (c :: l) := by
        intro t c hc h0 hn
        exact ih t c.1 c.2 hc
          (lt_of_lt_of_le (Finset.card_erase_lt_of_mem (mem_unseen hc h0)) hn)
      obtain ⟨u, m, hrun, hg, hc, _, hnb⟩ :=
        dfs_loop_spec fuel (dfs fuel) hvisit hxy hopen directions (fun _ h => h)
          (entered s x y) [] hg0 (fun c hc => absurd hc (List.not_mem_nil c)) hn0
      refine ⟨u, m, hrun, hg, ?_⟩
      intro c hc1 ho d had hd
      rcases List.mem_cons.1 hc1 with h | h
      · rw [h] at had
        obtain ⟨e, he, hde⟩ := directions_complete hxy had hd
        have := hnb e he (hde ▸ hd)
        rw [hde]
        exact this
      · exact hc c h ho d had hd
    · rw [if_neg hopen]
      refine ⟨entered s x y, [], rfl, hg0, ?_⟩
      intro c hc ho
      rw [List.mem_singleton.1 hc] at ho
      exact absurd ho hopen

/-! ## Fuel -/

theorem unseen_erase_card (s : Game) {x y : Nat} (hxy : inb (x, y)) :
    ((unseen s).erase (x, y)).card < WIDTH * HEIGHT := by
  have hsub : (unseen s).erase (x, y) ⊆
      (Finset.range WIDTH ×ˢ Finset.range HEIGHT).erase (x, y) := by
    apply Finset.erase_subset_erase
    exact Finset.filter_subset _ _
  have hmem : (x, y) ∈ Finset.range WIDTH ×ˢ Finset.range HEIGHT := by
    simp only [Finset.mem_product, Finset.mem_range]; exact hxy
  have hcard : ((Finset.range WIDTH ×ˢ Finset.range HEIGHT).erase (x, y)).card
      < WIDTH * HEIGHT := by
    have h := Finset.card_erase_lt_of_mem hmem
    rwa [Finset.card_product, Finset.card_range, Finset.card_range] at h
  exact lt_of_le_of_lt (Finset.card_le_card hsub) hcard

theorem dfs_loop_mono {visit1 visit2 : Game → Nat → Nat → Option Game}
    (h : ∀ t a b u, visit1 t a b = some u → visit2 t a b = some u) (x y : Nat) :
    ∀ (ds : List (Nat × Nat)) (t u : Game),
      dfs_loop visit1 x y ds t = some u → dfs_loop visit2 x y ds t = some u := by
  intro ds
  induction ds with
  | nil => intro t u hu; exact hu
  | cons d ds ih =>
    intro t u hu
    simp only [dfs_loop] at hu ⊢
    cases h1 : dfs_step visit1 x y t d with
    | none => rw [h1] at hu; exact absurd hu (by simp)
    | some t1 =>
      rw [h1] at hu
      have h2 : dfs_step visit2 x y t d = some t1 := by
        unfold dfs_step at h1 ⊢
        by_cases hg : in_bounds ((x + d.1) % 256) ((y + d.2) % 256) ≠ 0 ∧
            t.visible ((x + d.1) % 256) ((y + d.2) % 256) = 0
        · simp only [if_pos hg] at h1 ⊢; exact h _ _ _ _ h1
        · simp only [if_neg hg] at h1 ⊢; exact h1
      rw [h2]
      exact ih t1 u hu

/-- More fuel never changes what the search returns. -/
theorem dfs_fuel_succ : ∀ (fuel : Nat) (s : Game) (x y : Nat) (u : Game),
    dfs fuel s x y = some u → dfs (fuel + 1) s x y = some u := by
  intro fuel
  induction fuel with
  | zero => intro s x y u h; exact absurd h (by simp [dfs])
  | succ fuel ih =>
    intro s x y u h
    rw [dfs_succ] at h ⊢
    by_cases ho : get_object_at s x y = EMPTY_SQUARE ∨ get_object_at s x y = DIAMOND
    · rw [if_pos ho] at h ⊢
      exact dfs_loop_mono ih x y directions _ u h
    · rw [if_neg ho] at h ⊢
      exact h

theorem dfs_fuel_le {fuel fuel2 : Nat} (hle : fuel ≤ fuel2) {s : Game} {x y : Nat} {u : Game}
    (h : dfs fuel s x y = some u) : dfs fuel2 s x y = some u := by
  induction hle with
  | refl => exact h
  | step _ ih => exact dfs_fuel_succ _ s x y u ih

/-- The search from an in-bounds seed returns, whatever the grid and the flags. -/
theorem discoverable_dfs_spec (s : Game) {x y : Nat} (hxy : inb (x, y)) :
    ∃ u l, discoverable_dfs s x y = some u ∧ Grown s (x, y) ((x, y) :: l) u ∧
      Closed u ((x, y) :: l) :=
  dfs_spec (WIDTH * HEIGHT) s x y hxy (unseen_erase_card s hxy)

/-- A duplicate-free list of squares of the grid has at most `WIDTH * HEIGHT` entries. -/
theorem length_le_squares {l : List Cell} (hn : l.Nodup) (hi : ∀ c ∈ l, inb c) :
    l.length ≤ WIDTH * HEIGHT := by
  have hsub : l.toFinset ⊆ Finset.range WIDTH ×ˢ Finset.range HEIGHT := by
    intro c hc
    simp only [Finset.mem_product, Finset.mem_range]
    exact hi c (List.mem_toFinset.1 hc)
  have h := Finset.card_le_card hsub
  rwa [List.toFinset_card_of_nodup hn, Finset.card_product, Finset.card_range,
    Finset.card_range] at h

/-! ## A second search from the same seed -/

theorem dfs_loop_skip (visit : Game → Nat → Nat → Option Game) (x y : Nat) (t : Game) :
    ∀ (ds : List (Nat × Nat)),
      (∀ d ∈ ds, ¬ (in_bounds ((x + d.1) % 256) ((y + d.2) % 256) ≠ 0 ∧
        t.visible ((x + d.1) % 256) ((y + d.2) % 256) = 0)) →
      dfs_loop visit x y ds t = some t := by
  intro ds
  induction ds with
  | nil => intro _; rfl
  | cons d ds ih =>
    intro h
    simp only [dfs_loop, dfs_step, if_neg (h d (List.mem_cons_self d ds))]
    exact ih (fun e he => h e (List.mem_cons_of_mem d he))

/-- A search from a seed that is discovered with flag 1 and, when open, has all its
neighbours discovered, only renders the seed again. -/
theorem dfs_settled (fuel : Nat) (u : Game) {x y : Nat} (hxy : inb (x, y))
    (h1 : u.visible x y = 1) (hc : Closed u [(x, y)]) :
    dfs (fuel + 1) u x y = some (update_square_colour u x y (get_object_at u x y)) := by
  have hw : write u.visible x y 1 = u.visible := by
    funext i j
    unfold write
    by_cases h : i = x ∧ j = y
    · rw [if_pos h, h.1, h.2, h1]
    · rw [if_neg h]
  have he : entered u x y = update_square_colour u x y (get_object_at u x y) := by
    unfold entered
    rw [hw]
  rw [dfs_succ, he]
  by_cases ho : get_object_at u x y = EMPTY_SQUARE ∨ get_object_at u x y = DIAMOND
  · rw [if_pos ho]
    apply dfs_loop_skip
    intro d hd hg
    have hin : inb ((x + d.1) % 256, (y + d.2) % 256) := (in_bounds_ne_zero _ _).1 hg.1
    have h0 : u.visible ((x + d.1) % 256) ((y + d.2) % 256) = 0 := hg.2
    rcases directions_sound hxy hd hin with h | h
    · rw [Prod.mk.injEq] at h
      rw [h.1, h.2, h1] at h0
      exact Nat.one_ne_zero h0
    · exact hc (x, y) (List.mem_singleton_self _) ho _ h hin h0
  · rw [if_neg ho]

theorem second_search (s : Game) {x y : Nat} (hxy : inb (x, y)) :
    ∃ u, discoverable_dfs s x y = some u ∧
      discoverable_dfs u x y = some (update_square_colour u x y (get_object_at s x y)) := by
  obtain ⟨u, l, hrun, hg, hc⟩ := discoverable_dfs_spec s hxy
  refine ⟨u, hrun, ?_⟩
  have h1 : u.visible x y = 1 := by
    rw [hg.seen]; exact marks_mem (c := (x, y)) (List.mem_cons_self _ _)
  have hc1 : Closed u [(x, y)] := by
    intro c hc0
    exact hc c (List.mem_cons.2 (Or.inl (List.mem_singleton.1 hc0)))
  have h := dfs_settled 127 u hxy h1 hc1
  rw [get_object_at_congr hg.field] at h
  exact h

/-! ## The discovered set of a search on an undiscovered grid -/

theorem grown_visible {s u : Game} {x y : Nat} {l : List Cell}
    (hnone : ∀ c, inb c → s.visible c.1 c.2 = 0)
    (hg : Grown s (x, y) ((x, y) :: l) u) (hc : Closed u ((x, y) :: l)) (c : Cell)
    (hi : inb c) :
    (u.visible c.1 c.2 = 1 ↔ Conn s (x, y) c) ∧ (u.visible c.1 c.2 = 0 ↔ ¬ Conn s (x, y) c) := by
  have hout : ∀ a : Cell, inb a → a ∉ (x, y) :: l → u.visible a.1 a.2 = 0 := by
    intro a ha hm
    rw [hg.seen]
    show (if (a.1, a.2) ∈ (x, y) :: l then 1 else s.visible a.1 a.2) = 0
    rw [if_neg hm]
    exact hnone a ha
  have hmem : ∀ a : Cell, a ∈ (x, y) :: l → u.visible a.1 a.2 = 1 := by
    intro a ha; rw [hg.seen]; exact marks_mem ha
  have hconn : ∀ a : Cell, Conn s (x, y) a → a ∈ (x, y) :: l := by
    intro a h
    induction h with
    | start => exact List.mem_cons_self _ _
    | @step b d _ ho had hin ih =>
      by_contra hm
      exact hc b ih ((is_open_congr hg.field b).2 ho) d had hin (hout d hin hm)
  by_cases hm : c ∈ (x, y) :: l
  · have h1 := hmem c hm
    have hcn := hg.conn c hm
    constructor
    · exact ⟨fun _ => hcn, fun _ => h1⟩
    · constructor
      · intro h0; rw [h1] at h0; exact absurd h0 Nat.one_ne_zero
      · intro h; exact absurd hcn h
  · have h0 := hout c hi hm
    have hcn : ¬ Conn s (x, y) c := fun h => hm (hconn c h)
    constructor
    · constructor
      · intro h1; rw [h0] at h1; exact absurd h1 Nat.zero_ne_one
      · intro h; exact absurd h hcn
    · exact ⟨fun _ => hcn, fun _ => h0⟩

theorem OpenPath.open_end {s : Game} {a c : Cell} (h : OpenPath s a c) : is_open s c := by
  cases h with
  | start _ ho => exact ho
  | step _ _ _ ho => exact ho

theorem OpenPath.conn {s : Game} {a c : Cell} (h : OpenPath s a c) : Conn s a c := by
  induction h with
  | start _ _ => exact Conn.start
  | step hp had hin _ ih => exact Conn.step ih hp.open_end had hin

/-- From an open in-bounds seed, the connected squares are the open region and its
boundary. -/
theorem conn_iff_region {s : Game} {a : Cell} (hi : inb a) (ho : is_open s a) (c : Cell) :
    Conn s a c ↔ OpenPath s a c ∨ Boundary s a c := by
  constructor
  · intro h
    induction h with
    | start => exact Or.inl (OpenPath.start hi ho)
    | @step b d _ hob had hin ih =>
      have hp : OpenPath s a b := by
        rcases ih with h | h
        · exact h
        · exact absurd hob h.2.1
      by_cases hod : is_open s d
      · exact Or.inl (OpenPath.step hp had hin hod)
      · exact Or.inr ⟨hin, hod, b, hp, had⟩
  · intro h
    rcases h with h | ⟨hin, _, b, hp, had⟩
    · exact h.conn
    · exact Conn.step hp.conn hp.open_end had hin

/-! ## Initialisation -/

theorem Inited.nil (s : Game) : Inited (fun _ _ => False) s s :=
  ⟨fun _ _ h => h.elim, fun _ _ _ => rfl, fun _ _ h => h.elim, fun _ _ _ => rfl,
    rfl, rfl, rfl, rfl, rfl, rfl⟩

theorem Inited.square (s : Game) (x y : Nat) :
    Inited (fun i j => i = x ∧ j = y) s (init_square s x y) := by
  refine ⟨?_, ?_, ?_, ?_, rfl, rfl, rfl, rfl, rfl, rfl⟩
  · intro i j h
    show write s.playing_field x y _ i j = _
    unfold write; rw [if_pos h, h.1, h.2]
  · intro i j h
    show write s.playing_field x y _ i j = _
    unfold write; rw [if_neg h]
  · intro i j h
    show write s.visible x y _ i j = _
    unfold write; rw [if_pos h]
  · intro i j h
    show write s.visible x y _ i j = _
    unfold write; rw [if_neg h]

theorem Inited.seq {p q : Nat → Nat → Prop} {s t u : Game} (h1 : Inited p s t)
    (h2 : Inited q t u) : Inited (fun i j => p i j ∨ q i j) s u := by
  refine ⟨?_, ?_, ?_, ?_, h2.px.trans h1.px, h2.py.trans h1.py, h2.fx.trans h1.fx,
    h2.fy.trans h1.fy, h2.fv.trans h1.fv, h2.shown.trans h1.shown⟩
  · intro i j h
    by_cases hq : q i j
    · exact h2.field_in i j hq
    · rw [h2.field_out i j hq]
      exact h1.field_in i j (h.resolve_right hq)
  · intro i j h
    rw [h2.field_out i j (fun hq => h (Or.inr hq))]
    exact h1.field_out i j (fun hp => h (Or.inl hp))
  · intro i j h
    by_cases hq : q i j
    · exact h2.seen_in i j hq
    · rw [h2.seen_out i j hq]
      exact h1.seen_in i j (h.resolve_right hq)
  · intro i j h
    rw [h2.seen_out i j (fun hq => h (Or.inr hq))]
    exact h1.seen_out i j (fun hp => h (Or.inl hp))

theorem Inited.iff {p q : Nat → Nat → Prop} {s t : Game} (h : Inited p s t)
    (hpq : ∀ i j, p i j ↔ q i j) : Inited q s t := by
  have : p = q := by funext i j; exact propext (hpq i j)
  rw [← this]; exact h

theorem Inited.fold_layout {β : Type} (f : Game → β → Game) (q : β → Nat → Nat → Prop)
    (hf : ∀ s b, Inited (q b) s (f s b)) :
    ∀ (l : List β) (s : Game), Inited (fun i j => ∃ b ∈ l, q b i j) s (l.foldl f s) := by
  intro l
  induction l with
  | nil =>
    intro s
    exact (Inited.nil s).iff (fun i j => by simp)
  | cons b l ih =>
    intro s
    rw [List.foldl_cons]
    refine ((hf s b).seq (ih (f s b))).iff (fun i j => ?_)
    simp only [List.mem_cons, exists_eq_or_imp]

/-- What `initialise_game_state` leaves: the layout on the grid, nothing discovered, the
player at `(0, 0)` facing `(1, 0)`. -/
theorem initialise_game_state_spec (s : Game) :
    (∀ x y, x < WIDTH → y < HEIGHT →
      (initialise_game_state s).playing_field x y = layout_at (HEIGHT - 1 - y) x ∧
      (initialise_game_state s).visible x y = 0) ∧
    (initialise_game_state s).player_x = 0 ∧ (initialise_game_state s).player_y = 0 ∧
    (initialise_game_state s).facing_x = 1 ∧ (initialise_game_state s).facing_y = 0 ∧
    (initialise_game_state s).facing_visible = 1 ∧
    (initialise_game_state s).display = s.display := by
  have h := Inited.fold_layout
    (fun s x => (List.range HEIGHT).foldl (fun s y => init_square s x y) s)
    (fun x i j => ∃ y ∈ List.range HEIGHT, i = x ∧ j = y)
    (fun s x => Inited.fold_layout (fun s y => init_square s x y) (fun y i j => i = x ∧ j = y)
      (fun s y => Inited.square s x y) (List.range HEIGHT) s)
    (List.range WIDTH)
    { s with
      player_x := PLAYER_START_X
      player_y := PLAYER_START_Y
      facing_x := FACING_START_X
      facing_y := FACING_START_Y
      facing_visible := 1 }
  have hp : ∀ x y, x < WIDTH → y < HEIGHT →
      ∃ b ∈ List.range WIDTH, ∃ c ∈ List.range HEIGHT, x = b ∧ y = c :=
    fun x y hx hy => ⟨x, List.mem_range.2 hx, y, List.mem_range.2 hy, rfl, rfl⟩
  exact ⟨fun x y hx hy => ⟨h.field_in x y (hp x y hx hy), h.seen_in x y (hp x y hx hy)⟩,
    h.px, h.py, h.fx, h.fy, h.fv, h.shown⟩

theorem SameVars.fold_same {β : Type} (f : Game → β → Game) (hf : ∀ s b, SameVars s (f s b)) :
    ∀ (l : List β) (s : Game), SameVars s (l.foldl f s) := by
  intro l
  induction l with
  | nil => intro s; exact ⟨rfl, rfl, rfl, rfl, rfl, rfl, rfl⟩
  | cons b l ih =>
    intro s
    rw [List.foldl_cons]
    have h1 := hf s b
    have h2 := ih (f s b)
    exact ⟨h2.field.trans h1.field, h2.seen.trans h1.seen, h2.px.trans h1.px,
      h2.py.trans h1.py, h2.fx.trans h1.fx, h2.fy.trans h1.fy, h2.fv.trans h1.fv⟩

theorem undiscovered_all_vars (dc : DisplayCodes) (s : Game) :
    SameVars s (undiscovered_all dc s) := by
  unfold undiscovered_all
  exact SameVars.fold_same
    (fun s x => (List.range HEIGHT).foldl (fun s y => undiscover_square dc s x y) s)
    (fun s _ => SameVars.fold_same (fun s y => undiscover_square dc s _ y)
      (fun _ _ => ⟨rfl, rfl, rfl, rfl, rfl, rfl, rfl⟩) (List.range HEIGHT) s)
    (List.range WIDTH) s

/-- What `initialise_game` does: the search from `(0, 0)` on the freshly laid out grid
returns, and the player and facing markers are rendered after it. -/
theorem initialise_game_spec (dc : DisplayCodes) (s : Game) :
    ∃ t u l, initialise_game dc s =
        some (update_square_colour (update_square_colour u 0 0 dc.PLAYER) 1 0 dc.FACING) ∧
      SameVars (initialise_game_state s) t ∧ Grown t (0, 0) ((0, 0) :: l) u ∧
      Closed u ((0, 0) :: l) := by
  have hs := initialise_game_state_spec s
  have hv := undiscovered_all_vars dc (initialise_game_state s)
  have hxy : inb (0, 0) := by decide
  obtain ⟨u, l, hrun, hg, hc⟩ :=
    discoverable_dfs_spec (undiscovered_all dc (initialise_game_state s)) hxy
  refine ⟨_, u, l, ?_, hv, hg, hc⟩
  have hpx : (undiscovered_all dc (initialise_game_state s)).player_x = 0 :=
    hv.px.trans hs.2.1
  have hpy : (undiscovered_all dc (initialise_game_state s)).player_y = 0 :=
    hv.py.trans hs.2.2.1
  have e1 : u.player_x = 0 := hg.px.trans hpx
  have e2 : u.player_y = 0 := hg.py.trans hpy
  have e3 : u.facing_x = 1 := (hg.fx.trans hv.fx).trans hs.2.2.2.1
  have e4 : u.facing_y = 0 := (hg.fy.trans hv.fy).trans hs.2.2.2.2.1
  unfold initialise_game initialise_game_display
  simp only [hpx, hpy, hrun]
  have e5 : (update_square_colour u u.player_x u.player_y dc.PLAYER).facing_x = 1 := e3
  have e6 : (update_square_colour u u.player_x u.player_y dc.PLAYER).facing_y = 0 := e4
  rw [e5, e6, e1, e2]

/-! ## The region around the start -/

theorem is_open_of_terrain {s t : Game}
    (h : ∀ x y, get_object_at t x y = get_object_at s x y) (c : Cell) :
    is_open t c ↔ is_open s c := by
  unfold is_open; rw [h]

theorem Conn.of_terrain {s t : Game} (h : ∀ x y, get_object_at t x y = get_object_at s x y)
    {a c : Cell} (hc : Conn t a c) : Conn s a c := by
  induction hc with
  | start => exact Conn.start
  | step _ ho ha hi ih => exact Conn.step ih ((is_open_of_terrain h _).1 ho) ha hi

theorem terrain_start {s t : Game}
    (hf : t.playing_field = (initialise_game_state s).playing_field) (x y : Nat) :
    get_object_at t x y = get_object_at layout_game x y := by
  unfold get_object_at
  by_cases h0 : in_bounds x y = 0
  · rw [if_pos h0, if_pos h0]
  · rw [if_neg h0, if_neg h0, hf]
    have hi : inb (x, y) := (in_bounds_ne_zero x y).1 h0
    exact ((initialise_game_state_spec s).1 x y hi.1 hi.2).1

theorem adj_nbrs {b d : Cell} (h : adj b d) : d ∈ nbrs b := by
  obtain ⟨b1, b2⟩ := b
  obtain ⟨d1, d2⟩ := d
  simp only [adj] at h
  simp only [nbrs, List.mem_cons, Prod.mk.injEq, List.mem_singleton, List.not_mem_nil,
    or_false]
  omega

theorem start_region_closed :
    ∀ b ∈ start_region, is_open layout_game b → ∀ d ∈ nbrs b, inb d → d ∈ start_region := by
  decide

theorem start_region_chain : chain layout_game [(0, 0)] start_region.tail = true := by
  decide

theorem chain_conn (s : Game) (seed : Cell) : ∀ (cs acc : List Cell),
    (∀ b ∈ acc, Conn s seed b) → chain s acc cs = true → ∀ c ∈ cs, Conn s seed c := by
  intro cs
  induction cs with
  | nil => intro _ _ _ c hc; exact absurd hc (List.not_mem_nil c)
  | cons a cs ih =>
    intro acc hacc hch c hc
    simp only [chain, Bool.and_eq_true, decide_eq_true_eq] at hch
    obtain ⟨⟨hin, b, hb, hob, hadj⟩, hrest⟩ := hch
    have ha : Conn s seed a := Conn.step (hacc b hb) hob hadj hin
    rcases List.mem_cons.1 hc with h | h
    · rw [h]; exact ha
    · refine ih (a :: acc) ?_ hrest c h
      intro e he
      rcases List.mem_cons.1 he with h2 | h2
      · rw [h2]; exact ha
      · exact hacc e h2

/-- On the starting layout the squares connected to `(0, 0)` are the fifteen of
`start_region`. -/
theorem conn_start_region (c : Cell) : Conn layout_game (0, 0) c ↔ c ∈ start_region := by
  constructor
  · intro h
    induction h with
    | start => decide
    | @step b d _ ho had hin ih => exact start_region_closed b ih ho d (adj_nbrs had) hin
  · intro h
    rcases List.mem_cons.1 h with h0 | h0
    · rw [h0]; exact Conn.start
    · refine chain_conn layout_game (0, 0) start_region.tail [(0, 0)] ?_ start_region_chain c h0
      intro b hb
      rw [List.mem_singleton.1 hb]
      exact Conn.start

theorem mem_start_region (x y : Nat) :
    (x, y) ∈ start_region ↔ (x ≤ 2 ∧ y ≤ 2) ∨ (x = 3 ∧ y ≤ 2) ∨ (x ≤ 2 ∧ y = 3) := by
  constructor
  · intro h
    simp only [start_region, List.mem_cons, Prod.mk.injEq, List.mem_singleton,
      List.not_mem_nil, or_false] at h
    omega
  · intro h
    have hx : x ≤ 3 := by omega
    have hy : y ≤ 3 := by omega
    interval_cases x <;> interval_cases y <;> first | decide | (exfalso; omega)

theorem OpenPath.iff_conn {s : Game} {a : Cell} (hi : inb a) (ho : is_open s a) (c : Cell) :
    OpenPath s a c ↔ Conn s a c ∧ is_open s c := by
  constructor
  · intro h; exact ⟨h.conn, h.open_end⟩
  · intro h
    rcases (conn_iff_region hi ho c).1 h.1 with hp | hb
    · exact hp
    · exact absurd h.2 hb.2.1

theorem start_region_open :
    ∀ c ∈ start_region, (is_open layout_game c ↔ c.1 ≤ 2 ∧ c.2 ≤ 2) := by
  decide

/-- After `initialise_game_state`, the open region of `(0, 0)` is the 3 × 3 block. -/
theorem open_region_start (s : Game) (x y : Nat) :
    OpenPath (initialise_game_state s) (0, 0) (x, y) ↔ x ≤ 2 ∧ y ≤ 2 := by
  have ht := terrain_start (s := s) (t := initialise_game_state s) rfl
  have ht2 : ∀ x y, get_object_at layout_game x y =
      get_object_at (initialise_game_state s) x y := fun x y => (ht x y).symm
  have h00 : is_open (initialise_game_state s) (0, 0) :=
    (is_open_of_terrain ht (0, 0)).2 (by decide)
  rw [OpenPath.iff_conn (by decide) h00, is_open_of_terrain ht]
  constructor
  · rintro ⟨hc, ho⟩
    have hm := (conn_start_region (x, y)).1 (hc.of_terrain ht)
    exact (start_region_open (x, y) hm).1 ho
  · intro h
    have hm : (x, y) ∈ start_region := (mem_start_region x y).2 (Or.inl h)
    exact ⟨((conn_start_region (x, y)).2 hm).of_terrain ht2,
      (start_region_open (x, y) hm).2 h⟩

/-! ## The claims -/

/-- C1. Reachability correctness of `discoverable_dfs`: on any grid on which no square is
discovered, a search from an in-bounds open seed returns, and then a square of the grid has
its flag at 1 exactly when it is in the open region of the seed (reached by orthogonal steps
through in-bounds open squares) or is an in-bounds wall orthogonally next to that region.  A
square that is neither in the region nor orthogonally next to it, such as one that only
touches it diagonally, keeps its flag at 0. -/
theorem discoverable_dfs_reachability (s : Game) (x0 y0 : Nat) (hx : x0 < WIDTH)
    (hy : y0 < HEIGHT) (hnone : ∀ x y, x < WIDTH → y < HEIGHT → s.visible x y = 0)
    (hopen : get_object_at s x0 y0 = EMPTY_SQUARE ∨ get_object_at s x0 y0 = DIAMOND) :
    ∃ u, discoverable_dfs s x0 y0 = some u ∧
      (∀ x y, x < WIDTH → y < HEIGHT →
        (u.visible x y = 1 ↔ OpenPath s (x0, y0) (x, y) ∨ Boundary s (x0, y0) (x, y))) ∧
      (∀ x y, x < WIDTH → y < HEIGHT → ¬ OpenPath s (x0, y0) (x, y) →
        (∀ b, OpenPath s (x0, y0) b → ¬ adj b (x, y)) → u.visible x y = 0) := by
  have hxy : inb (x0, y0) := ⟨hx, hy⟩
  obtain ⟨u, l, hrun, hg, hc⟩ := discoverable_dfs_spec s hxy
  have hv := grown_visible (fun c hi => hnone c.1 c.2 hi.1 hi.2) hg hc
  refine ⟨u, hrun, ?_, ?_⟩
  · intro x y hx1 hy1
    rw [← conn_iff_region hxy hopen (x, y)]
    exact (hv (x, y) ⟨hx1, hy1⟩).1
  · intro x y hx1 hy1 hnp hnb
    apply ((hv (x, y) ⟨hx1, hy1⟩).2).2
    intro hconn
    rcases (conn_iff_region hxy hopen (x, y)).1 hconn with h | h
    · exact hnp h
    · obtain ⟨_, _, b, hb, hadj⟩ := h
      exact hnb b hb hadj

theorem discoverable_dfs_reachability_witness :
    (0 < WIDTH ∧ 0 < HEIGHT) ∧
    (∀ x y, x < WIDTH → y < HEIGHT → layout_game.visible x y = 0) ∧
    (get_object_at layout_game 0 0 = EMPTY_SQUARE ∨ get_object_at layout_game 0 0 = DIAMOND) ∧
    ∃ u, discoverable_dfs layout_game 0 0 = some u ∧
      (∀ x y, x < WIDTH → y < HEIGHT →
        (u.visible x y = 1 ↔
          OpenPath layout_game (0, 0) (x, y) ∨ Boundary layout_game (0, 0) (x, y))) ∧
      (∀ x y, x < WIDTH → y < HEIGHT → ¬ OpenPath layout_game (0, 0) (x, y) →
        (∀ b, OpenPath layout_game (0, 0) b → ¬ adj b (x, y)) → u.visible x y = 0) :=
  ⟨⟨by decide, by decide⟩, fun _ _ _ _ => rfl, by decide,
    discoverable_dfs_reachability layout_game 0 0 (by decide) (by decide)
      (fun _ _ _ _ => rfl) (by decide)⟩

/-- C2. Termination of `discoverable_dfs`: for every grid, every array of flags and every
in-bounds seed the search returns with recursion depth at most `WIDTH * HEIGHT = 128` (that
much fuel, or any more, gives the same result); the squares whose body it entered, one
render call each in order, form a list without a repeated square, so there are at most 128
visits and render calls. -/
theorem discoverable_dfs_terminates (s : Game) (x y : Nat) (hx : x < WIDTH) (hy : y < HEIGHT) :
    ∃ (u : Game) (l : List Cell), discoverable_dfs s x y = some u ∧
      (∀ fuel, WIDTH * HEIGHT ≤ fuel → dfs fuel s x y = some u) ∧
      u.display = s.display ++ l.map (fun c => (c.1, c.2, get_object_at s c.1 c.2)) ∧
      l.Nodup ∧ (∀ c ∈ l, c.1 < WIDTH ∧ c.2 < HEIGHT) ∧
      l.length ≤ WIDTH * HEIGHT ∧ WIDTH * HEIGHT = 128 := by
  obtain ⟨u, l, hrun, hg, _⟩ := discoverable_dfs_spec s (x := x) (y := y) ⟨hx, hy⟩
  exact ⟨u, (x, y) :: l, hrun, fun fuel hf => dfs_fuel_le hf hrun, hg.shown, hg.once,
    hg.inside, length_le_squares hg.once hg.inside, rfl⟩

theorem discoverable_dfs_terminates_witness :
    (3 < WIDTH ∧ 2 < HEIGHT) ∧
    ∃ (u : Game) (l : List Cell), discoverable_dfs blank_game 3 2 = some u ∧
      (∀ fuel, WIDTH * HEIGHT ≤ fuel → dfs fuel blank_game 3 2 = some u) ∧
      u.display =
        blank_game.display ++ l.map (fun c => (c.1, c.2, get_object_at blank_game c.1 c.2)) ∧
      l.Nodup ∧ (∀ c ∈ l, c.1 < WIDTH ∧ c.2 < HEIGHT) ∧
      l.length ≤ WIDTH * HEIGHT ∧ WIDTH * HEIGHT = 128 :=
  ⟨⟨by decide, by decide⟩, discoverable_dfs_terminates blank_game 3 2 (by decide) (by decide)⟩

/-- C3. Idempotence of the search on the state: for every grid, every array of flags and
every in-bounds seed, both searches return and the second one leaves `visible`,
`playing_field`, the player and the facing variables exactly as the first one left them. -/
theorem discoverable_dfs_twice_state (s : Game) (x y : Nat) (hx : x < WIDTH)
    (hy : y < HEIGHT) :
    ∃ u w, discoverable_dfs s x y = some u ∧ discoverable_dfs u x y = some w ∧
      w.visible = u.visible ∧ w.playing_field = u.playing_field ∧
      w.player_x = u.player_x ∧ w.player_y = u.player_y ∧
      w.facing_x = u.facing_x ∧ w.facing_y = u.facing_y ∧
      w.facing_visible = u.facing_visible := by
  obtain ⟨u, h1, h2⟩ := second_search s (x := x) (y := y) ⟨hx, hy⟩
  exact ⟨u, _, h1, h2, rfl, rfl, rfl, rfl, rfl, rfl, rfl⟩

theorem discoverable_dfs_twice_state_witness :
    (0 < WIDTH ∧ 0 < HEIGHT) ∧
    ∃ u w, discoverable_dfs layout_game 0 0 = some u ∧ discoverable_dfs u 0 0 = some w ∧
      w.visible = u.visible ∧ w.playing_field = u.playing_field ∧
      w.player_x = u.player_x ∧ w.player_y = u.player_y ∧
      w.facing_x = u.facing_x ∧ w.facing_y = u.facing_y ∧
      w.facing_visible = u.facing_visible :=
  ⟨⟨by decide, by decide⟩, discoverable_dfs_twice_state layout_game 0 0 (by decide) (by decide)⟩

/-- C4, as amended. A second search from the same in-bounds seed, right after the first,
emits exactly one render call: the seed itself with its terrain code, and nothing for any
other square. -/
theorem discoverable_dfs_twice_render (s : Game) (x y : Nat) (hx : x < WIDTH)
    (hy : y < HEIGHT) :
    ∃ u w, discoverable_dfs s x y = some u ∧ discoverable_dfs u x y = some w ∧
      w.display = u.display ++ [(x, y, get_object_at s x y)] := by
  obtain ⟨u, h1, h2⟩ := second_search s (x := x) (y := y) ⟨hx, hy⟩
  exact ⟨u, _, h1, h2, rfl⟩

theorem discoverable_dfs_twice_render_witness :
    (0 < WIDTH ∧ 0 < HEIGHT) ∧
    ∃ u w, discoverable_dfs layout_game 0 0 = some u ∧ discoverable_dfs u 0 0 = some w ∧
      w.display = u.display ++ [(0, 0, get_object_at layout_game 0 0)] :=
  ⟨⟨by decide, by decide⟩, discoverable_dfs_twice_render layout_game 0 0 (by decide) (by decide)⟩

/-- C4 as stated fails: on the grid whose only open square is the corner, the first search
from `(0, 0)` renders the corner and its two walls, and the second search renders the corner
once more. -/
theorem discoverable_dfs_twice_render_counterexample :
    ∃ u w, discoverable_dfs corner_game 0 0 = some u ∧ discoverable_dfs u 0 0 = some w ∧
      u.display = [(0, 0, 0), (0, 1, 4), (1, 0, 4)] ∧
      w.display = [(0, 0, 0), (0, 1, 4), (1, 0, 4), (0, 0, 0)] ∧
      w.display ≠ u.display :=
  ⟨_, _, rfl, rfl, rfl, rfl, by decide⟩

/-- C5. Move rejection is a no-op: for every state and each of the four orthogonal unit
directions (`-1` being 255 as a `uint8_t`), when the candidate square is out of bounds or
holds `UNBREAKABLE`, `move_player` returns the state it was given: position, facing,
`facing_visible`, `playing_field`, `visible` and the list of render calls are all unchanged. -/
theorem move_player_rejected (s : Game) (dx dy : Nat)
    (hdir : (dx, dy) = (0, 1) ∨ (dx, dy) = (0, 255) ∨ (dx, dy) = (1, 0) ∨ (dx, dy) = (255, 0))
    (hrej : in_bounds ((s.player_x + dx) % 256) ((s.player_y + dy) % 256) = 0 ∨
      get_object_at s ((s.player_x + dx) % 256) ((s.player_y + dy) % 256) = UNBREAKABLE) :
    move_player s dx dy = s ∧ (move_player s dx dy).display = s.display := by
  have _h1 := hdir
  have _h2 := hrej
  exact ⟨rfl, rfl⟩

theorem move_player_rejected_witness :
    ((0, 255) = (0, 1) ∨ (0, 255) = (0, 255) ∨ (0, 255) = (1, 0) ∨ (0, 255) = (255, 0)) ∧
    (in_bounds ((layout_game.player_x + 0) % 256) ((layout_game.player_y + 255) % 256) = 0 ∨
      get_object_at layout_game ((layout_game.player_x + 0) % 256)
        ((layout_game.player_y + 255) % 256) = UNBREAKABLE) ∧
    (move_player layout_game 0 255 = layout_game ∧
      (move_player layout_game 0 255).display = layout_game.display) :=
  ⟨by decide, Or.inl (by decide),
    move_player_rejected layout_game 0 255 (by decide) (Or.inl (by decide))⟩

/-- C6 at its failing input: right after `initialise_game` the square `(1, 0)` ahead of the
player is in bounds and `EMPTY_SQUARE`, yet `move_player(1, 0)` leaves the player at `(0, 0)`
and the whole state as it was. -/
theorem move_player_start_unmoved (dc : DisplayCodes) :
    ∃ s0, initialise_game dc blank_game = some s0 ∧
      s0.player_x = 0 ∧ s0.player_y = 0 ∧
      in_bounds ((s0.player_x + 1) % 256) ((s0.player_y + 0) % 256) = 1 ∧
      get_object_at s0 ((s0.player_x + 1) % 256) ((s0.player_y + 0) % 256) = EMPTY_SQUARE ∧
      (move_player s0 1 0).player_x = 0 ∧ (move_player s0 1 0).player_y = 0 ∧
      move_player s0 1 0 = s0 := by
  obtain ⟨t, u, l, hrun, hv, hg, _⟩ := initialise_game_spec dc blank_game
  have hs := initialise_game_state_spec blank_game
  have hpx : u.player_x = 0 := (hg.px.trans hv.px).trans hs.2.1
  have hpy : u.player_y = 0 := (hg.py.trans hv.py).trans hs.2.2.1
  have hvu : u.playing_field = (initialise_game_state blank_game).playing_field :=
    hg.field.trans hv.field
  have hobj : ∀ a b, get_object_at
      (update_square_colour (update_square_colour u 0 0 dc.PLAYER) 1 0 dc.FACING) a b =
      get_object_at layout_game a b := fun a b => terrain_start hvu a b
  refine ⟨_, hrun, hpx, hpy, ?_, ?_, hpx, hpy, rfl⟩
  · show in_bounds ((u.player_x + 1) % 256) ((u.player_y + 0) % 256) = 1
    rw [hpx, hpy]; decide
  · rw [hobj]
    show get_object_at layout_game ((u.player_x + 1) % 256) ((u.player_y + 0) % 256) = _
    rw [hpx, hpy]; decide

/-- C8. `get_object_at` is total and bounds-safe: for all coordinates it returns
`playing_field[x][y]` when `x < WIDTH` and `y < HEIGHT` and `UNBREAKABLE` otherwise, and with
the array read checked it never reads outside the array.  It is a function of the state: it
assigns nothing. -/
theorem get_object_at_total (s : Game) (x y : Nat) :
    get_object_at s x y =
      (if x < WIDTH ∧ y < HEIGHT then s.playing_field x y else UNBREAKABLE) ∧
    get_object_at_checked s x y = some (get_object_at s x y) := by
  unfold get_object_at_checked get_object_at read
  by_cases h : in_bounds x y = 0
  · have hn : ¬ (x < WIDTH ∧ y < HEIGHT) := (in_bounds_eq_zero x y).1 h
    rw [if_pos h, if_pos h, if_neg hn]
    exact ⟨rfl, rfl⟩
  · have hi : x < WIDTH ∧ y < HEIGHT := (in_bounds_ne_zero x y).1 h
    rw [if_neg h, if_neg h, if_pos hi, if_pos hi]
    exact ⟨rfl, rfl⟩

/-- C9. `in_bounds` returns 1 when `x < WIDTH` and `y < HEIGHT` and 0 otherwise; the wrapped
value 255 (`0 - 1` as a `uint8_t`), `WIDTH` and `HEIGHT` are out of bounds on their axis. -/
theorem in_bounds_characterisation (x y : Nat) :
    in_bounds x y = (if x < WIDTH ∧ y < HEIGHT then 1 else 0) ∧
    WIDTH = 16 ∧ HEIGHT = 8 ∧
    in_bounds ((0 + 255) % 256) y = 0 ∧ in_bounds x ((0 + 255) % 256) = 0 ∧
    in_bounds WIDTH y = 0 ∧ in_bounds x HEIGHT = 0 := by
  refine ⟨?_, rfl, rfl, ?_, ?_, ?_, ?_⟩
  · unfold in_bounds
    by_cases h : x < WIDTH ∧ y < HEIGHT
    · rw [if_pos h, if_pos ⟨Nat.zero_le _, h.1, Nat.zero_le _, h.2⟩]
    · rw [if_neg h, if_neg (fun h4 => h ⟨h4.2.1, h4.2.2.2⟩)]
  · rw [in_bounds_eq_zero]; intro h
    have h1 : (0 + 255) % 256 < WIDTH := h.1
    revert h1; decide
  · rw [in_bounds_eq_zero]; intro h
    have h1 : (0 + 255) % 256 < HEIGHT := h.2
    revert h1; decide
  · rw [in_bounds_eq_zero]; intro h; exact absurd h.1 (lt_irrefl _)
  · rw [in_bounds_eq_zero]; intro h; exact absurd h.2 (lt_irrefl _)

/-- C10. Start-up discovered set: `initialise_game` returns, and on the grid a flag is 1
exactly on the fifteen squares made of the open region of `(0, 0)`, which is the block
`0 ≤ x ≤ 2`, `0 ≤ y ≤ 2`, and of the walls `(3, 0)`, `(3, 1)`, `(3, 2)`, `(0, 3)`, `(1, 3)`,
`(2, 3)`; every other flag is 0, the one of the diagonal corner `(3, 3)` included. -/
theorem initialise_game_discovered (dc : DisplayCodes) (s : Game) :
    ∃ u, initialise_game dc s = some u ∧
      (∀ x y, x < WIDTH → y < HEIGHT →
        (u.visible x y = 1 ↔ (x ≤ 2 ∧ y ≤ 2) ∨ (x = 3 ∧ y ≤ 2) ∨ (x ≤ 2 ∧ y = 3)) ∧
        (u.visible x y = 0 ↔ ¬ ((x ≤ 2 ∧ y ≤ 2) ∨ (x = 3 ∧ y ≤ 2) ∨ (x ≤ 2 ∧ y = 3)))) ∧
      (∀ x y, OpenPath (initialise_game_state s) (0, 0) (x, y) ↔ x ≤ 2 ∧ y ≤ 2) ∧
      u.visible 3 3 = 0 ∧
      ((Finset.range WIDTH ×ˢ Finset.range HEIGHT).filter
        (fun c => u.visible c.1 c.2 = 1)).card = 15 := by
  obtain ⟨t, u, l, hrun, hv, hg, hc⟩ := initialise_game_spec dc s
  have hs := initialise_game_state_spec s
  have hnone : ∀ c, inb c → t.visible c.1 c.2 = 0 := by
    intro c hi
    rw [hv.seen]
    exact (hs.1 c.1 c.2 hi.1 hi.2).2
  have ht := terrain_start hv.field
  have ht2 : ∀ x y, get_object_at layout_game x y = get_object_at t x y :=
    fun x y => (ht x y).symm
  have hconn : ∀ c, Conn t (0, 0) c ↔ c ∈ start_region := fun c =>
    ⟨fun h => (conn_start_region c).1 (h.of_terrain ht),
      fun h => ((conn_start_region c).2 h).of_terrain ht2⟩
  have hvis := grown_visible hnone hg hc
  have hall : ∀ x y, x < WIDTH → y < HEIGHT →
      (u.visible x y = 1 ↔ (x ≤ 2 ∧ y ≤ 2) ∨ (x = 3 ∧ y ≤ 2) ∨ (x ≤ 2 ∧ y = 3)) ∧
      (u.visible x y = 0 ↔ ¬ ((x ≤ 2 ∧ y ≤ 2) ∨ (x = 3 ∧ y ≤ 2) ∨ (x ≤ 2 ∧ y = 3))) := by
    intro x y hx hy
    have h := hvis (x, y) ⟨hx, hy⟩
    rw [hconn, mem_start_region] at h
    exact h
  refine ⟨_, hrun, hall, open_region_start s, ((hall 3 3 (by decide) (by decide)).2).2
    (by decide), ?_⟩
  have hset : (Finset.range WIDTH ×ˢ Finset.range HEIGHT).filter
      (fun c => u.visible c.1 c.2 = 1) = start_region.toFinset := by
    ext c
    simp only [Finset.mem_filter, Finset.mem_product, Finset.mem_range, List.mem_toFinset]
    constructor
    · rintro ⟨hi, h1⟩
      exact (mem_start_region c.1 c.2).2 ((hall c.1 c.2 hi.1 hi.2).1.1 h1)
    · intro hm
      have hi : inb c := by revert c; decide
      exact ⟨hi, (hall c.1 c.2 hi.1 hi.2).1.2 ((mem_start_region c.1 c.2).1 hm)⟩
  show ((Finset.range WIDTH ×ˢ Finset.range HEIGHT).filter
    (fun c => u.visible c.1 c.2 = 1)).card = 15
  rw [hset]
  decide

/-! ## Further facts about one search -/

/-- Whatever the fuel, a search from an in-bounds seed that returns has entered once each
square of a list starting with the seed. -/
theorem run_grown {fuel : Nat} {s u : Game} {x y : Nat} (hxy : inb (x, y))
    (h : dfs fuel s x y = some u) :
    ∃ l, Grown s (x, y) ((x, y) :: l) u ∧ Closed u ((x, y) :: l) := by
  obtain ⟨u2, l, hrun, hg, hc⟩ :=
    dfs_spec (fuel + WIDTH * HEIGHT) s x y hxy
      (lt_of_lt_of_le (unseen_erase_card s hxy) (Nat.le_add_left _ _))
  have h2 := dfs_fuel_le (Nat.le_add_right fuel (WIDTH * HEIGHT)) h
  rw [hrun] at h2
  have hu : u2 = u := Option.some.inj h2
  rw [← hu]
  exact ⟨l, hg, hc⟩

theorem flags_of_grown {s u : Game} {x y : Nat} {l : List Cell}
    (hg : Grown s (x, y) ((x, y) :: l) u) :
    u.visible x y = 1 ∧
    (∀ i j, (i, j) ≠ (x, y) →
      u.visible i j = s.visible i j ∨ (s.visible i j = 0 ∧ u.visible i j = 1)) := by
  constructor
  · rw [hg.seen]; exact marks_mem (c := (x, y)) (List.mem_cons_self _ _)
  · intro i j hne
    by_cases hm : (i, j) ∈ (x, y) :: l
    · right
      refine ⟨hg.fresh (i, j) hm hne, ?_⟩
      rw [hg.seen]; exact marks_mem hm
    · left
      rw [hg.seen]
      show (if (i, j) ∈ (x, y) :: l then 1 else s.visible i j) = s.visible i j
      rw [if_neg hm]

/-! ## The claims, continued -/

/-- C12. The contract of `flash_facing`, for `facing_visible` in `{0, 1}`: with the facing
square out of bounds the state is returned as it is, no render call added; with it in bounds
exactly one render call is added, at the facing square, with the terrain code of the square
when `facing_visible` was 1 and with `FACING` when it was 0, `facing_visible` takes the other
value of `{0, 1}`, and `playing_field`, `visible`, the player and the facing square stay. -/
theorem flash_facing_contract (dc : DisplayCodes) (s : Game)
    (hfv : s.facing_visible = 0 ∨ s.facing_visible = 1) :
    (in_bounds s.facing_x s.facing_y = 0 → flash_facing dc s = s) ∧
    (in_bounds s.facing_x s.facing_y ≠ 0 →
      (flash_facing dc s).display = s.display ++ [(s.facing_x, s.facing_y,
        if s.facing_visible = 1 then get_object_at s s.facing_x s.facing_y else dc.FACING)] ∧
      (flash_facing dc s).facing_visible = 1 - s.facing_visible ∧
      ((flash_facing dc s).facing_visible = 0 ∨ (flash_facing dc s).facing_visible = 1) ∧
      (flash_facing dc s).facing_visible ≠ s.facing_visible ∧
      (flash_facing dc s).playing_field = s.playing_field ∧
      (flash_facing dc s).visible = s.visible ∧
      (flash_facing dc s).player_x = s.player_x ∧ (flash_facing dc s).player_y = s.player_y ∧
      (flash_facing dc s).facing_x = s.facing_x ∧
      (flash_facing dc s).facing_y = s.facing_y) := by
  constructor
  · intro h0
    unfold flash_facing
    rw [if_neg (fun h => h h0)]
  · intro hin
    unfold flash_facing
    rw [if_pos hin]
    rcases hfv with h | h
    · simp [h, update_square_colour]
    · simp [h, update_square_colour]

theorem flash_facing_contract_witness :
    (layout_game.facing_visible = 0 ∨ layout_game.facing_visible = 1) ∧
    (in_bounds layout_game.facing_x layout_game.facing_y = 0 →
      flash_facing sample_codes layout_game = layout_game) ∧
    (in_bounds layout_game.facing_x layout_game.facing_y ≠ 0 →
      (flash_facing sample_codes layout_game).display =
        layout_game.display ++ [(layout_game.facing_x, layout_game.facing_y,
          if layout_game.facing_visible = 1 then
            get_object_at layout_game layout_game.facing_x layout_game.facing_y
          else sample_codes.FACING)] ∧
      (flash_facing sample_codes layout_game).facing_visible =
        1 - layout_game.facing_visible ∧
      ((flash_facing sample_codes layout_game).facing_visible = 0 ∨
        (flash_facing sample_codes layout_game).facing_visible = 1) ∧
      (flash_facing sample_codes layout_game).facing_visible ≠ layout_game.facing_visible ∧
      (flash_facing sample_codes layout_game).playing_field = layout_game.playing_field ∧
      (flash_facing sample_codes layout_game).visible = layout_game.visible ∧
      (flash_facing sample_codes layout_game).player_x = layout_game.player_x ∧
      (flash_facing sample_codes layout_game).player_y = layout_game.player_y ∧
      (flash_facing sample_codes layout_game).facing_x = layout_game.facing_x ∧
      (flash_facing sample_codes layout_game).facing_y = layout_game.facing_y) :=
  ⟨Or.inr rfl, flash_facing_contract sample_codes layout_game (Or.inr rfl)⟩

/-- C13. Frame of the search: for every state whose flags on the grid are 0 or 1, as is
every state the game can be in (`reachable_flags`), and every in-bounds seed, the search
returns and leaves `playing_field`, the player, the facing square and `facing_visible` as they
were; every flag of `visible` either stays or goes from 0 to 1, so no square discovered
before is undiscovered after; the flag of the seed is 1 on return. -/
theorem discoverable_dfs_frame (s : Game) (x y : Nat) (hx : x < WIDTH) (hy : y < HEIGHT)
    (hflags : ∀ i j, i < WIDTH → j < HEIGHT → s.visible i j = 0 ∨ s.visible i j = 1) :
    ∃ u, discoverable_dfs s x y = some u ∧
      u.playing_field = s.playing_field ∧ u.player_x = s.player_x ∧
      u.player_y = s.player_y ∧ u.facing_x = s.facing_x ∧ u.facing_y = s.facing_y ∧
      u.facing_visible = s.facing_visible ∧
      (∀ i j, u.visible i j = s.visible i j ∨ (s.visible i j = 0 ∧ u.visible i j = 1)) ∧
      (∀ i j, s.visible i j ≠ 0 → u.visible i j ≠ 0) ∧
      u.visible x y = 1 := by
  obtain ⟨u, l, hrun, hg, _⟩ := discoverable_dfs_spec s (x := x) (y := y) ⟨hx, hy⟩
  have hfl := flags_of_grown hg
  refine ⟨u, hrun, hg.field, hg.px, hg.py, hg.fx, hg.fy, hg.fv, ?_,
    fun i j h => hg.flags_kept h, hfl.1⟩
  intro i j
  by_cases hij : (i, j) = (x, y)
  · rw [Prod.mk.injEq] at hij
    rw [hij.1, hij.2, hfl.1]
    rcases hflags x y hx hy with h | h
    · exact Or.inr ⟨h, rfl⟩
    · exact Or.inl h.symm
  · exact hfl.2 i j hij

theorem discoverable_dfs_frame_witness :
    (0 < WIDTH ∧ 0 < HEIGHT) ∧
    (∀ i j, i < WIDTH → j < HEIGHT →
      layout_game.visible i j = 0 ∨ layout_game.visible i j = 1) ∧
    ∃ u, discoverable_dfs layout_game 0 0 = some u ∧
      u.playing_field = layout_game.playing_field ∧ u.player_x = layout_game.player_x ∧
      u.player_y = layout_game.player_y ∧ u.facing_x = layout_game.facing_x ∧
      u.facing_y = layout_game.facing_y ∧
      u.facing_visible = layout_game.facing_visible ∧
      (∀ i j, u.visible i j = layout_game.visible i j ∨
        (layout_game.visible i j = 0 ∧ u.visible i j = 1)) ∧
      (∀ i j, layout_game.visible i j ≠ 0 → u.visible i j ≠ 0) ∧
      u.visible 0 0 = 1 :=
  ⟨⟨by decide, by decide⟩, fun _ _ _ _ => Or.inl rfl,
    discoverable_dfs_frame layout_game 0 0 (by decide) (by decide)
      (fun _ _ _ _ => Or.inl rfl)⟩

/-- C14. Layout mapping at initialisation: after `initialise_game_state`, for every `x < WIDTH`
and `y < HEIGHT`, `playing_field[x][y]` is `starting_layout[HEIGHT - 1 - y][x]`, so row
`y = 0` is the last row of the table and row `y = HEIGHT - 1` the first, and `visible[x][y]` is
0; the player is at `(0, 0)`, the facing square is `(1, 0)` and `facing_visible` is 1. -/
theorem initialise_game_state_layout (s : Game) :
    (∀ x y, x < WIDTH → y < HEIGHT →
      (initialise_game_state s).playing_field x y = layout_at (HEIGHT - 1 - y) x ∧
      (initialise_game_state s).visible x y = 0) ∧
    (∀ x, x < WIDTH →
      (initialise_game_state s).playing_field x 0 = layout_at 7 x ∧
      (initialise_game_state s).playing_field x (HEIGHT - 1) = layout_at 0 x) ∧
    (initialise_game_state s).playing_field 14 0 = DIAMOND ∧
    (initialise_game_state s).playing_field 1 7 = BREAKABLE ∧
    (initialise_game_state s).player_x = 0 ∧ (initialise_game_state s).player_y = 0 ∧
    (initialise_game_state s).facing_x = 1 ∧ (initialise_game_state s).facing_y = 0 ∧
    (initialise_game_state s).facing_visible = 1 := by
  have h := initialise_game_state_spec s
  refine ⟨h.1, ?_, ?_, ?_, h.2.1, h.2.2.1, h.2.2.2.1, h.2.2.2.2.1, h.2.2.2.2.2.1⟩
  · intro x hx
    exact ⟨(h.1 x 0 hx (by decide)).1, (h.1 x (HEIGHT - 1) hx (by decide)).1⟩
  · rw [(h.1 14 0 (by decide) (by decide)).1]; decide
  · rw [(h.1 1 7 (by decide) (by decide)).1]; decide

/-- C16. Walls are search boundaries: from an in-bounds seed whose terrain is neither
`EMPTY_SQUARE` nor `DIAMOND`, whatever the grid and the flags, the search returns without any
recursive call (a recursion depth of 1 is enough), sets the flag of the seed to 1, emits the
single render call `(x, y, terrain)`, and leaves every other flag unchanged. -/
theorem discoverable_dfs_wall (s : Game) (x y : Nat) (hx : x < WIDTH) (hy : y < HEIGHT)
    (hwall : get_object_at s x y ≠ EMPTY_SQUARE ∧ get_object_at s x y ≠ DIAMOND) :
    ∃ u, discoverable_dfs s x y = some u ∧ dfs 1 s x y = some u ∧
      u.visible x y = 1 ∧
      u.display = s.display ++ [(x, y, get_object_at s x y)] ∧
      (∀ i j, (i, j) ≠ (x, y) → u.visible i j = s.visible i j) ∧
      u.playing_field = s.playing_field := by
  have _hx := hx
  have _hy := hy
  have hno : ¬ (get_object_at s x y = EMPTY_SQUARE ∨ get_object_at s x y = DIAMOND) :=
    fun h => h.elim hwall.1 hwall.2
  have h1 : dfs 1 s x y = some (entered s x y) := by
    rw [dfs_succ, if_neg hno]
  refine ⟨entered s x y, dfs_fuel_le (by decide) h1, h1, ?_, rfl, ?_, rfl⟩
  · show write s.visible x y 1 x y = 1
    unfold write; rw [if_pos ⟨rfl, rfl⟩]
  · intro i j hne
    show write s.visible x y 1 i j = s.visible i j
    unfold write
    rw [if_neg]
    intro h
    exact hne (by rw [h.1, h.2])

theorem discoverable_dfs_wall_witness :
    (1 < WIDTH ∧ 0 < HEIGHT) ∧
    (get_object_at corner_game 1 0 ≠ EMPTY_SQUARE ∧ get_object_at corner_game 1 0 ≠ DIAMOND) ∧
    ∃ u, discoverable_dfs corner_game 1 0 = some u ∧ dfs 1 corner_game 1 0 = some u ∧
      u.visible 1 0 = 1 ∧
      u.display = corner_game.display ++ [(1, 0, get_object_at corner_game 1 0)] ∧
      (∀ i j, (i, j) ≠ (1, 0) → u.visible i j = corner_game.visible i j) ∧
      u.playing_field = corner_game.playing_field :=
  ⟨⟨by decide, by decide⟩, by decide,
    discoverable_dfs_wall corner_game 1 0 (by decide) (by decide) (by decide)⟩

theorem terrain_of_field {s : Game}
    (hf : ∀ i j, i < WIDTH → j < HEIGHT → is_terrain (s.playing_field i j)) (x y : Nat) :
    is_terrain (get_object_at s x y) := by
  unfold get_object_at
  by_cases h0 : in_bounds x y = 0
  · rw [if_pos h0]; exact Or.inr (Or.inr (Or.inl rfl))
  · rw [if_neg h0]
    have hi : inb (x, y) := (in_bounds_ne_zero x y).1 h0
    exact hf x y hi.1 hi.2

/-- C17. One render per visited square, with its terrain: from a grid on which no square is
discovered and an in-bounds seed, the render calls of the search are, in order, one call
`(cx, cy, get_object_at(cx, cy))` for each square of a list without repetition, and the
squares of that list are exactly the squares of the grid discovered on return.  When the
grid holds only terrain codes every call carries a terrain code, hence none of `PLAYER`,
`FACING`, `UNDISCOVERED`, these being no terrain codes. -/
theorem discoverable_dfs_renders (s : Game) (x y : Nat) (hx : x < WIDTH) (hy : y < HEIGHT)
    (hnone : ∀ i j, i < WIDTH → j < HEIGHT → s.visible i j = 0) :
    ∃ (u : Game) (l : List Cell), discoverable_dfs s x y = some u ∧
      u.display = s.display ++ l.map (fun c => (c.1, c.2, get_object_at u c.1 c.2)) ∧
      l.Nodup ∧
      (∀ c : Cell, c ∈ l ↔ c.1 < WIDTH ∧ c.2 < HEIGHT ∧ u.visible c.1 c.2 ≠ 0) ∧
      (∀ c ∈ l, u.visible c.1 c.2 = 1) ∧
      ((∀ i j, i < WIDTH → j < HEIGHT → is_terrain (s.playing_field i j)) →
        ∀ c ∈ l, is_terrain (get_object_at u c.1 c.2) ∧
          ∀ dc : DisplayCodes, ¬ is_terrain dc.PLAYER → ¬ is_terrain dc.FACING →
            ¬ is_terrain dc.UNDISCOVERED →
            get_object_at u c.1 c.2 ≠ dc.PLAYER ∧ get_object_at u c.1 c.2 ≠ dc.FACING ∧
              get_object_at u c.1 c.2 ≠ dc.UNDISCOVERED) := by
  obtain ⟨u, l, hrun, hg, _⟩ := discoverable_dfs_spec s (x := x) (y := y) ⟨hx, hy⟩
  have hgo : (fun c : Cell => (c.1, c.2, get_object_at u c.1 c.2)) =
      fun c : Cell => (c.1, c.2, get_object_at s c.1 c.2) := by
    funext c; rw [get_object_at_congr hg.field]
  refine ⟨u, (x, y) :: l, hrun, ?_, hg.once, ?_, ?_, ?_⟩
  · rw [hgo]; exact hg.shown
  · intro c
    constructor
    · intro hc
      refine ⟨(hg.inside c hc).1, (hg.inside c hc).2, ?_⟩
      rw [hg.seen, marks_mem hc]
      exact Nat.one_ne_zero
    · rintro ⟨h1, h2, h3⟩
      by_contra hm
      apply h3
      rw [hg.seen]
      show (if (c.1, c.2) ∈ (x, y) :: l then 1 else s.visible c.1 c.2) = 0
      rw [if_neg hm]
      exact hnone c.1 c.2 h1 h2
  · intro c hc
    rw [hg.seen]; exact marks_mem hc
  · intro hf c _
    have ht : is_terrain (get_object_at u c.1 c.2) := by
      rw [get_object_at_congr hg.field]; exact terrain_of_field hf c.1 c.2
    refine ⟨ht, ?_⟩
    intro dc h1 h2 h3
    exact ⟨fun h => h1 (h ▸ ht), fun h => h2 (h ▸ ht), fun h => h3 (h ▸ ht)⟩

theorem discoverable_dfs_renders_witness :
    (0 < WIDTH ∧ 0 < HEIGHT) ∧
    (∀ i j, i < WIDTH → j < HEIGHT → layout_game.visible i j = 0) ∧
    ∃ (u : Game) (l : List Cell), discoverable_dfs layout_game 0 0 = some u ∧
      u.display =
        layout_game.display ++ l.map (fun c => (c.1, c.2, get_object_at u c.1 c.2)) ∧
      l.Nodup ∧
      (∀ c : Cell, c ∈ l ↔ c.1 < WIDTH ∧ c.2 < HEIGHT ∧ u.visible c.1 c.2 ≠ 0) ∧
      (∀ c ∈ l, u.visible c.1 c.2 = 1) ∧
      ((∀ i j, i < WIDTH → j < HEIGHT → is_terrain (layout_game.playing_field i j)) →
        ∀ c ∈ l, is_terrain (get_object_at u c.1 c.2) ∧
          ∀ dc : DisplayCodes, ¬ is_terrain dc.PLAYER → ¬ is_terrain dc.FACING →
            ¬ is_terrain dc.UNDISCOVERED →
            get_object_at u c.1 c.2 ≠ dc.PLAYER ∧ get_object_at u c.1 c.2 ≠ dc.FACING ∧
              get_object_at u c.1 c.2 ≠ dc.UNDISCOVERED) :=
  ⟨⟨by decide, by decide⟩, fun _ _ _ _ => rfl,
    discoverable_dfs_renders layout_game 0 0 (by decide) (by decide) (fun _ _ _ _ => rfl)⟩

/-! ## Invariants of the reachable states -/

theorem flash_facing_keeps (dc : DisplayCodes) (s : Game) :
    (flash_facing dc s).playing_field = s.playing_field ∧
    (flash_facing dc s).visible = s.visible ∧
    (flash_facing dc s).player_x = s.player_x ∧
    (flash_facing dc s).player_y = s.player_y := by
  unfold flash_facing
  by_cases h1 : in_bounds s.facing_x s.facing_y ≠ 0
  · rw [if_pos h1]
    by_cases h2 : s.facing_visible ≠ 0
    · simp only [if_pos h2]
      exact ⟨rfl, rfl, rfl, rfl⟩
    · simp only [if_neg h2]
      exact ⟨rfl, rfl, rfl, rfl⟩
  · rw [if_neg h1]
    exact ⟨rfl, rfl, rfl, rfl⟩

theorem closed_flags_congr {s t : Game} (hf : t.playing_field = s.playing_field)
    (hv : t.visible = s.visible) (h : closed_flags s) : closed_flags t := by
  intro c hin hc ho d had hd
  rw [hv] at hc ⊢
  exact h c hin hc ((is_open_congr hf c).1 ho) d had hd

theorem closed_of_grown {s u : Game} {seed : Cell} {l : List Cell} (h : closed_flags s)
    (hg : Grown s seed l u) (hc : Closed u l) : closed_flags u := by
  intro c hin hv ho d had hd
  by_cases hm : c ∈ l
  · exact hc c hm ho d had hd
  · have hcs : s.visible c.1 c.2 ≠ 0 := by
      intro h0
      apply hv
      rw [hg.seen]
      show (if (c.1, c.2) ∈ l then 1 else s.visible c.1 c.2) = 0
      rw [if_neg hm]
      exact h0
    exact hg.flags_kept (h c hin hcs ((is_open_congr hg.field c).1 ho) d had hd)

theorem closed_after_search {s u : Game} {x y : Nat} (h : closed_flags s) (hxy : inb (x, y))
    (hrun : discoverable_dfs s x y = some u) : closed_flags u := by
  obtain ⟨l, hg, hc⟩ := run_grown hxy hrun
  exact closed_of_grown h hg hc

/-- What holds right after `initialise_game`: the player is at `(0, 0)`, the terrain is the
starting layout, and the discovered set is closed. -/
theorem started_spec {dc : DisplayCodes} {s : Game} (h : Started dc s) :
    s.player_x = 0 ∧ s.player_y = 0 ∧
    (∀ x y, get_object_at s x y = get_object_at layout_game x y) ∧ closed_flags s := by
  obtain ⟨s0, hs0⟩ := h
  obtain ⟨t, u, l, hrun, hv, hg, hc⟩ := initialise_game_spec dc s0
  have hs := initialise_game_state_spec s0
  rw [hrun] at hs0
  have hsu : s = update_square_colour (update_square_colour u 0 0 dc.PLAYER) 1 0 dc.FACING :=
    (Option.some.inj hs0).symm
  have hnone : closed_flags t := by
    intro c hin hvis
    exfalso
    apply hvis
    rw [hv.seen]
    exact (hs.1 c.1 c.2 hin.1 hin.2).2
  have hcu : closed_flags u := closed_of_grown hnone hg hc
  rw [hsu]
  refine ⟨(hg.px.trans hv.px).trans hs.2.1, (hg.py.trans hv.py).trans hs.2.2.1, ?_, ?_⟩
  · intro x y
    exact terrain_start (s := s0) (hg.field.trans hv.field) x y
  · exact closed_flags_congr (s := u) rfl rfl hcu

theorem reachable_inv {dc : DisplayCodes} {s : Game} (h : Reachable dc s) :
    s.player_x = 0 ∧ s.player_y = 0 ∧
    (∀ x y, get_object_at s x y = get_object_at layout_game x y) ∧ closed_flags s := by
  induction h with
  | init h0 => exact started_spec h0
  | move dx dy _ ih => exact ih
  | @flash s _ ih =>
    have hk := flash_facing_keeps dc s
    refine ⟨hk.2.2.1.trans ih.1, hk.2.2.2.trans ih.2.1, ?_, ?_⟩
    · intro x y
      rw [get_object_at_congr hk.1]; exact ih.2.2.1 x y
    · exact closed_flags_congr hk.1 hk.2.1 ih.2.2.2
  | @search s u x y _ hx hy hrun ih =>
    obtain ⟨l, hg, hc⟩ := run_grown (x := x) (y := y) ⟨hx, hy⟩ hrun
    refine ⟨hg.px.trans ih.1, hg.py.trans ih.2.1, ?_, closed_of_grown ih.2.2.2 hg hc⟩
    intro a b
    rw [get_object_at_congr hg.field]; exact ih.2.2.1 a b

theorem marks_boolean {v : Nat → Nat → Nat} (l : List Cell) {i j : Nat}
    (h : v i j = 0 ∨ v i j = 1) : marks v l i j = 0 ∨ marks v l i j = 1 := by
  unfold marks
  by_cases hm : (i, j) ∈ l
  · rw [if_pos hm]; exact Or.inr rfl
  · rw [if_neg hm]; exact h

/-- In every state the game can be in, the flags of the grid are 0 or 1: `game.c` stores
nothing else in `visible`. -/
theorem reachable_flags {dc : DisplayCodes} {s : Game} (h : Reachable dc s) :
    ∀ i j, i < WIDTH → j < HEIGHT → s.visible i j = 0 ∨ s.visible i j = 1 := by
  induction h with
  | init h0 =>
    obtain ⟨s0, hs0⟩ := h0
    obtain ⟨t, u, l, hrun, hv, hg, _⟩ := initialise_game_spec dc s0
    have hs := initialise_game_state_spec s0
    rw [hrun] at hs0
    rw [← Option.some.inj hs0]
    intro i j hi hj
    show u.visible i j = 0 ∨ u.visible i j = 1
    rw [hg.seen]
    apply marks_boolean
    rw [hv.seen]
    exact Or.inl (hs.1 i j hi hj).2
  | move dx dy _ ih => exact ih
  | @flash s _ ih =>
    intro i j hi hj
    rw [(flash_facing_keeps dc s).2.1]
    exact ih i j hi hj
  | @search s u x y _ hx hy hrun ih =>
    obtain ⟨l, hg, _⟩ := run_grown (x := x) (y := y) ⟨hx, hy⟩ hrun
    intro i j hi hj
    rw [hg.seen]
    exact marks_boolean _ (ih i j hi hj)

/-- In no state the game can be in is the player one orthogonal step from a diamond: the
player never leaves `(0, 0)`, whose neighbours on the grid hold `EMPTY_SQUARE`. -/
theorem reachable_no_diamond_ahead {dc : DisplayCodes} {s : Game} (h : Reachable dc s)
    (d : Nat × Nat) (hd : d ∈ [(0, 1), (0, 255), (1, 0), (255, 0)]) :
    get_object_at s ((s.player_x + d.1) % 256) ((s.player_y + d.2) % 256) ≠ DIAMOND := by
  obtain ⟨h1, h2, h3, _⟩ := reachable_inv h
  rw [h3, h1, h2]
  revert d
  decide

/-- C15. Player-position invariant: in every state reached from `initialise_game` by
`move_player` with any arguments, `flash_facing` and `discoverable_dfs` on in-bounds seeds,
the player is in bounds and the square of the player does not hold `UNBREAKABLE`. -/
theorem player_position_invariant (dc : DisplayCodes) (s : Game) (h : Reachable dc s) :
    s.player_x < WIDTH ∧ s.player_y < HEIGHT ∧ in_bounds s.player_x s.player_y = 1 ∧
    get_object_at s s.player_x s.player_y ≠ UNBREAKABLE := by
  obtain ⟨h1, h2, h3, _⟩ := reachable_inv h
  rw [h3, h1, h2]
  decide

theorem player_position_invariant_witness :
    ∃ s, Reachable sample_codes (move_player (flash_facing sample_codes s) 255 7) ∧
      (move_player (flash_facing sample_codes s) 255 7).player_x < WIDTH ∧
      (move_player (flash_facing sample_codes s) 255 7).player_y < HEIGHT ∧
      in_bounds (move_player (flash_facing sample_codes s) 255 7).player_x
        (move_player (flash_facing sample_codes s) 255 7).player_y = 1 ∧
      get_object_at (move_player (flash_facing sample_codes s) 255 7)
        (move_player (flash_facing sample_codes s) 255 7).player_x
        (move_player (flash_facing sample_codes s) 255 7).player_y ≠ UNBREAKABLE := by
  obtain ⟨_, u, _, hrun, _, _, _⟩ := initialise_game_spec sample_codes blank_game
  have hr : Reachable sample_codes (move_player (flash_facing sample_codes
      (update_square_colour (update_square_colour u 0 0 sample_codes.PLAYER) 1 0
        sample_codes.FACING)) 255 7) :=
    Reachable.move 255 7 (Reachable.flash (Reachable.init ⟨blank_game, hrun⟩))
  exact ⟨_, hr, player_position_invariant sample_codes _ hr⟩

/-- C20. Discovery-closure invariant: the state that `initialise_game` returns is closed;
from a closed state and an in-bounds seed the search returns and its result is closed; hence
every state reached through `move_player`, `flash_facing` and `discoverable_dfs` on in-bounds
seeds is closed. -/
theorem discovery_closed (dc : DisplayCodes) :
    (∀ s0 s, initialise_game dc s0 = some s → closed_flags s) ∧
    (∀ s0, ∃ s, initialise_game dc s0 = some s) ∧
    (∀ s x y, closed_flags s → x < WIDTH → y < HEIGHT →
      ∃ u, discoverable_dfs s x y = some u ∧ closed_flags u) ∧
    (∀ s, Reachable dc s → closed_flags s) := by
  refine ⟨?_, ?_, ?_, ?_⟩
  · intro s0 s h
    have hst : Started dc s := ⟨s0, h⟩
    exact (started_spec hst).2.2.2
  · intro s0
    obtain ⟨_, u, _, hrun, _, _, _⟩ := initialise_game_spec dc s0
    exact ⟨_, hrun⟩
  · intro s x y hcl hx hy
    obtain ⟨u, l, hrun, hg, hc⟩ := discoverable_dfs_spec s (x := x) (y := y) ⟨hx, hy⟩
    exact ⟨u, hrun, closed_of_grown hcl hg hc⟩
  · intro s h
    exact (reachable_inv h).2.2.2

/-! ## What the display shows -/

theorem shown_append_some {m : List RenderCall} {x y c : Nat} (h : shown_code m x y = some c) :
    ∀ l : List RenderCall, shown_code (l ++ m) x y = some c := by
  intro l
  induction l with
  | nil => exact h
  | cons r l ih =>
    show shown_code (r :: (l ++ m)) x y = some c
    unfold shown_code
    rw [ih]

theorem shown_append_none {m : List RenderCall} {x y : Nat} (h : shown_code m x y = none) :
    ∀ l : List RenderCall, shown_code (l ++ m) x y = shown_code l x y := by
  intro l
  induction l with
  | nil => rw [List.nil_append, h]; rfl
  | cons r l ih =>
    show shown_code (r :: (l ++ m)) x y = shown_code (r :: l) x y
    unfold shown_code
    rw [ih]

theorem shown_none_of_absent {x y : Nat} : ∀ m : List RenderCall,
    (∀ r ∈ m, ¬ (r.1 = x ∧ r.2.1 = y)) → shown_code m x y = none := by
  intro m
  induction m with
  | nil => intro _; rfl
  | cons r m ih =>
    intro h
    unfold shown_code
    rw [ih (fun q hq => h q (List.mem_cons_of_mem r hq)), if_neg (h r (List.mem_cons_self r m))]

theorem shown_mem {x y c : Nat} : ∀ m : List RenderCall, shown_code m x y = some c →
    ∃ r ∈ m, r.1 = x ∧ r.2.1 = y ∧ r.2.2 = c := by
  intro m
  induction m with
  | nil => intro h; exact absurd h (by simp [shown_code])
  | cons r m ih =>
    intro h
    unfold shown_code at h
    cases hm : shown_code m x y with
    | some c2 =>
      rw [hm] at h
      obtain ⟨q, hq, h3⟩ := ih (hm.trans h)
      exact ⟨q, List.mem_cons_of_mem r hq, h3⟩
    | none =>
      rw [hm] at h
      by_cases hr : r.1 = x ∧ r.2.1 = y
      · rw [if_pos hr] at h
        exact ⟨r, List.mem_cons_self r m, hr.1, hr.2, Option.some.inj h⟩
      · rw [if_neg hr] at h
        exact absurd h (by simp)

theorem shown_present {x y : Nat} : ∀ m : List RenderCall,
    (∃ r ∈ m, r.1 = x ∧ r.2.1 = y) → ∃ c, shown_code m x y = some c := by
  intro m
  induction m with
  | nil => rintro ⟨r, hr, _⟩; exact absurd hr (List.not_mem_nil r)
  | cons r m ih =>
    rintro ⟨q, hq, hxy⟩
    unfold shown_code
    cases hm : shown_code m x y with
    | some c2 => exact ⟨c2, rfl⟩
    | none =>
      rcases List.mem_cons.1 hq with h | h
      · rw [h] at hxy
        exact ⟨r.2.2, by simp only [if_pos hxy]⟩
      · obtain ⟨c, hc⟩ := ih ⟨q, h, hxy⟩
        rw [hm] at hc
        exact absurd hc (by simp)

/-- A square rendered in `m`, always with the code `c`, shows `c` after `m`. -/
theorem shown_unique {m : List RenderCall} {x y c : Nat}
    (hex : ∃ r ∈ m, r.1 = x ∧ r.2.1 = y)
    (hall : ∀ r ∈ m, r.1 = x ∧ r.2.1 = y → r.2.2 = c) : shown_code m x y = some c := by
  obtain ⟨c2, hc2⟩ := shown_present m hex
  obtain ⟨r, hr, h1, h2, h3⟩ := shown_mem m hc2
  rw [hc2, ← h3, hall r hr ⟨h1, h2⟩]

theorem fold_display {β : Type} (f : Game → β → Game) (h : β → List RenderCall)
    (hf : ∀ s b, (f s b).display = s.display ++ h b) :
    ∀ (l : List β) (s : Game), (l.foldl f s).display = s.display ++ l.flatMap h := by
  intro l
  induction l with
  | nil => intro s; simp
  | cons b l ih =>
    intro s
    rw [List.foldl_cons, ih, hf, List.flatMap_cons, List.append_assoc]

/-- The render calls of the two loops of `initialise_game_display`: one `UNDISCOVERED` for
every square of the grid. -/
theorem undiscovered_all_display (dc : DisplayCodes) (s : Game) :
    (undiscovered_all dc s).display = s.display ++
      (List.range WIDTH).flatMap
        (fun x => (List.range HEIGHT).flatMap (fun y => [(x, y, dc.UNDISCOVERED)])) := by
  unfold undiscovered_all
  exact fold_display
    (fun s x => (List.range HEIGHT).foldl (fun s y => undiscover_square dc s x y) s)
    (fun x => (List.range HEIGHT).flatMap (fun y => [(x, y, dc.UNDISCOVERED)]))
    (fun s x => fold_display (fun s y => undiscover_square dc s x y)
      (fun y => [(x, y, dc.UNDISCOVERED)]) (fun _ _ => rfl) (List.range HEIGHT) s)
    (List.range WIDTH) s

theorem shown_undiscovered (dc : DisplayCodes) (s : Game) {x y : Nat} (hx : x < WIDTH)
    (hy : y < HEIGHT) :
    shown_code (undiscovered_all dc s).display x y = some dc.UNDISCOVERED := by
  rw [undiscovered_all_display]
  apply shown_append_some
  apply shown_unique
  · refine ⟨(x, y, dc.UNDISCOVERED), ?_, rfl, rfl⟩
    rw [List.mem_flatMap]
    refine ⟨x, List.mem_range.2 hx, ?_⟩
    rw [List.mem_flatMap]
    exact ⟨y, List.mem_range.2 hy, List.mem_singleton_self _⟩
  · intro r hr _
    rw [List.mem_flatMap] at hr
    obtain ⟨a, _, hr⟩ := hr
    rw [List.mem_flatMap] at hr
    obtain ⟨b, _, hr⟩ := hr
    rw [List.mem_singleton.1 hr]

/-- The run of `initialise_game`, with the state in which its search starts. -/
theorem initialise_game_run (dc : DisplayCodes) (s : Game) :
    ∃ u l, initialise_game dc s =
        some (update_square_colour (update_square_colour u 0 0 dc.PLAYER) 1 0 dc.FACING) ∧
      Grown (undiscovered_all dc (initialise_game_state s)) (0, 0) ((0, 0) :: l) u ∧
      Closed u ((0, 0) :: l) := by
  have hs := initialise_game_state_spec s
  have hv := undiscovered_all_vars dc (initialise_game_state s)
  have hxy : inb (0, 0) := by decide
  obtain ⟨u, l, hrun, hg, hc⟩ :=
    discoverable_dfs_spec (undiscovered_all dc (initialise_game_state s)) hxy
  refine ⟨u, l, ?_, hg, hc⟩
  have hpx : (undiscovered_all dc (initialise_game_state s)).player_x = 0 :=
    hv.px.trans hs.2.1
  have hpy : (undiscovered_all dc (initialise_game_state s)).player_y = 0 :=
    hv.py.trans hs.2.2.1
  have e1 : u.player_x = 0 := hg.px.trans hpx
  have e2 : u.player_y = 0 := hg.py.trans hpy
  have e3 : u.facing_x = 1 := (hg.fx.trans hv.fx).trans hs.2.2.2.1
  have e4 : u.facing_y = 0 := (hg.fy.trans hv.fy).trans hs.2.2.2.2.1
  unfold initialise_game initialise_game_display
  simp only [hpx, hpy, hrun]
  have e5 : (update_square_colour u u.player_x u.player_y dc.PLAYER).facing_x = 1 := e3
  have e6 : (update_square_colour u u.player_x u.player_y dc.PLAYER).facing_y = 0 := e4
  rw [e5, e6, e1, e2]

/-- C11. Start-up render state, the display of a square being the last code passed to
`update_square_colour` for it: after `initialise_game`, `(0, 0)` shows `PLAYER`, `(1, 0)` shows
`FACING`, every other discovered square of the grid shows its own terrain code
`get_object_at(x, y)`, and every square of the grid that is not discovered shows
`UNDISCOVERED`. -/
theorem initialise_game_rendered (dc : DisplayCodes) (s : Game) :
    ∃ u, initialise_game dc s = some u ∧
      shown_code u.display 0 0 = some dc.PLAYER ∧
      shown_code u.display 1 0 = some dc.FACING ∧
      ∀ x y, x < WIDTH → y < HEIGHT → (x, y) ≠ (0, 0) → (x, y) ≠ (1, 0) →
        (u.visible x y ≠ 0 → shown_code u.display x y = some (get_object_at u x y)) ∧
        (u.visible x y = 0 → shown_code u.display x y = some dc.UNDISCOVERED) := by
  obtain ⟨u, l, hrun, hg, _⟩ := initialise_game_run dc s
  have hs := initialise_game_state_spec s
  have hv := undiscovered_all_vars dc (initialise_game_state s)
  refine ⟨_, hrun, ?_, ?_, ?_⟩
  · show shown_code ((u.display ++ [(0, 0, dc.PLAYER)]) ++ [(1, 0, dc.FACING)]) 0 0 = _
    rw [shown_append_none (m := [(1, 0, dc.FACING)]) (by simp [shown_code])]
    exact shown_append_some (by simp [shown_code]) _
  · show shown_code ((u.display ++ [(0, 0, dc.PLAYER)]) ++ [(1, 0, dc.FACING)]) 1 0 = _
    exact shown_append_some (by simp [shown_code]) _
  · intro x y hx hy h00 h10
    have hd : shown_code ((u.display ++ [(0, 0, dc.PLAYER)]) ++ [(1, 0, dc.FACING)]) x y =
        shown_code u.display x y := by
      rw [shown_append_none (m := [(1, 0, dc.FACING)]), shown_append_none]
      · apply shown_none_of_absent
        intro r hr hxy
        rw [List.mem_singleton.1 hr] at hxy
        exact h00 (by rw [← hxy.1, ← hxy.2])
      · apply shown_none_of_absent
        intro r hr hxy
        rw [List.mem_singleton.1 hr] at hxy
        exact h10 (by rw [← hxy.1, ← hxy.2])
    show (u.visible x y ≠ 0 → shown_code ((u.display ++ [(0, 0, dc.PLAYER)]) ++
        [(1, 0, dc.FACING)]) x y = some (get_object_at u x y)) ∧
      (u.visible x y = 0 → shown_code ((u.display ++ [(0, 0, dc.PLAYER)]) ++
        [(1, 0, dc.FACING)]) x y = some dc.UNDISCOVERED)
    rw [hd, hg.shown]
    have h0 : (undiscovered_all dc (initialise_game_state s)).visible x y = 0 := by
      rw [hv.seen]; exact (hs.1 x y hx hy).2
    constructor
    · intro hvis
      have hm : (x, y) ∈ (0, 0) :: l := by
        by_contra hm
        apply hvis
        rw [hg.seen]
        show (if (x, y) ∈ (0, 0) :: l then 1 else _) = 0
        rw [if_neg hm]
        exact h0
      apply shown_append_some
      apply shown_unique
      · exact ⟨_, List.mem_map.2 ⟨(x, y), hm, rfl⟩, rfl, rfl⟩
      · intro r hr hxy
        obtain ⟨c, _, hc⟩ := List.mem_map.1 hr
        rw [← hc] at hxy ⊢
        have h1 : c.1 = x := hxy.1
        have h2 : c.2 = y := hxy.2
        show get_object_at _ c.1 c.2 = get_object_at u x y
        rw [h1, h2, get_object_at_congr hg.field]
    · intro hvis
      have hm : (x, y) ∉ (0, 0) :: l := by
        intro hm
        rw [hg.seen, marks_mem (c := (x, y)) hm] at hvis
        exact Nat.one_ne_zero hvis
      rw [shown_append_none]
      · exact shown_undiscovered dc _ hx hy
      · apply shown_none_of_absent
        intro r hr hxy
        obtain ⟨c, hcl, hc⟩ := List.mem_map.1 hr
        rw [← hc] at hxy
        apply hm
        have : c = (x, y) := Prod.ext hxy.1 hxy.2
        rw [← this]
        exact hcl

/-! ## The search with checked indices -/

theorem get_object_at_checked_eq (s : Game) (x y : Nat) :
    get_object_at_checked s x y = some (get_object_at s x y) := by
  unfold get_object_at_checked get_object_at read
  by_cases h : in_bounds x y = 0
  · rw [if_pos h, if_pos h]
  · have hi : x < WIDTH ∧ y < HEIGHT := (in_bounds_ne_zero x y).1 h
    rw [if_neg h, if_neg h, if_pos hi]

theorem dfs_step_checked_eq {visitC : Game → Nat → Nat → Checked}
    {visit : Game → Nat → Nat → Option Game}
    (hv : ∀ t a b, inb (a, b) → visitC t a b = Checked.of_run (visit t a b))
    (x y : Nat) (s : Game) (d : Nat × Nat) :
    dfs_step_checked visitC x y s d = Checked.of_run (dfs_step visit x y s d) := by
  unfold dfs_step_checked dfs_step
  by_cases hin : in_bounds ((x + d.1) % 256) ((y + d.2) % 256) ≠ 0
  · have hi : inb ((x + d.1) % 256, (y + d.2) % 256) := (in_bounds_ne_zero _ _).1 hin
    have hr : read s.visible ((x + d.1) % 256) ((y + d.2) % 256) =
        some (s.visible ((x + d.1) % 256) ((y + d.2) % 256)) := by
      unfold read; exact if_pos hi
    simp only [if_pos hin, hr]
    by_cases h0 : s.visible ((x + d.1) % 256) ((y + d.2) % 256) = 0
    · rw [if_pos h0, if_pos ⟨hin, h0⟩]
      exact hv s _ _ hi
    · rw [if_neg h0, if_neg (fun h => h0 h.2)]
      rfl
  · simp only [if_neg hin]
    rw [if_neg (fun h => hin h.1)]
    rfl

theorem dfs_loop_checked_eq {visitC : Game → Nat → Nat → Checked}
    {visit : Game → Nat → Nat → Option Game}
    (hv : ∀ t a b, inb (a, b) → visitC t a b = Checked.of_run (visit t a b)) (x y : Nat) :
    ∀ (ds : List (Nat × Nat)) (s : Game),
      dfs_loop_checked visitC x y ds s = Checked.of_run (dfs_loop visit x y ds s) := by
  intro ds
  induction ds with
  | nil => intro s; rfl
  | cons d ds ih =>
    intro s
    unfold dfs_loop_checked dfs_loop
    rw [dfs_step_checked_eq hv]
    cases dfs_step visit x y s d with
    | none => rfl
    | some s1 => exact ih s1

/-- With every array index checked, the search from an in-bounds seed never leaves an
array: it ends as the unchecked search does. -/
theorem dfs_checked_eq : ∀ (fuel : Nat) (s : Game) (x y : Nat), inb (x, y) →
    dfs_checked fuel s x y = Checked.of_run (dfs fuel s x y) := by
  intro fuel
  induction fuel with
  | zero => intro s x y _; rfl
  | succ fuel ih =>
    intro s x y hxy
    have hw : write_checked s.visible x y 1 = some (write s.visible x y 1) := by
      unfold write_checked; exact if_pos hxy
    rw [dfs_succ]
    unfold dfs_checked
    simp only [hw, get_object_at_checked_eq]
    by_cases ho : get_object_at s x y = EMPTY_SQUARE ∨ get_object_at s x y = DIAMOND
    · have ho2 : get_object_at { s with visible := write s.visible x y 1 } x y = EMPTY_SQUARE ∨
          get_object_at { s with visible := write s.visible x y 1 } x y = DIAMOND := ho
      rw [if_pos ho, if_pos ho2]
      exact dfs_loop_checked_eq (fun t a b hab => ih t a b hab) x y directions _
    · have ho2 : ¬ (get_object_at { s with visible := write s.visible x y 1 } x y =
          EMPTY_SQUARE ∨
          get_object_at { s with visible := write s.visible x y 1 } x y = DIAMOND) := ho
      rw [if_neg ho, if_neg ho2]
      rfl

/-- C19. Index safety of the search under `uint8_t` wraparound: from a seed with `x < WIDTH`
and `y < HEIGHT`, whatever the grid and the flags, the search with every read and write of
`visible` and `playing_field` checked never reaches the out-of-range branch, at any recursion
depth, in all recursive calls and with the neighbours `x + 255` and `y + 255` reduced modulo
256; it returns the state the unchecked search returns. -/
theorem discoverable_dfs_index_safe (s : Game) (x y : Nat) (hx : x < WIDTH) (hy : y < HEIGHT) :
    (∀ fuel, dfs_checked fuel s x y ≠ Checked.out_of_range) ∧
    (∀ fuel, dfs_checked fuel s x y = Checked.of_run (dfs fuel s x y)) ∧
    ∃ u, discoverable_dfs s x y = some u ∧ dfs_checked (WIDTH * HEIGHT) s x y = Checked.ok u := by
  have hxy : inb (x, y) := ⟨hx, hy⟩
  refine ⟨?_, fun fuel => dfs_checked_eq fuel s x y hxy, ?_⟩
  · intro fuel h
    rw [dfs_checked_eq fuel s x y hxy] at h
    cases hr : dfs fuel s x y with
    | none => rw [hr] at h; exact Checked.noConfusion h
    | some u => rw [hr] at h; exact Checked.noConfusion h
  · obtain ⟨u, _, hrun, _, _⟩ := discoverable_dfs_spec s hxy
    refine ⟨u, hrun, ?_⟩
    rw [dfs_checked_eq _ s x y hxy]
    have h2 : dfs (WIDTH * HEIGHT) s x y = some u := hrun
    rw [h2]
    rfl

theorem discoverable_dfs_index_safe_witness :
    (0 < WIDTH ∧ 0 < HEIGHT) ∧
    (∀ fuel, dfs_checked fuel blank_game 0 0 ≠ Checked.out_of_range) ∧
    (∀ fuel, dfs_checked fuel blank_game 0 0 = Checked.of_run (dfs fuel blank_game 0 0)) ∧
    ∃ u, discoverable_dfs blank_game 0 0 = some u ∧
      dfs_checked (WIDTH * HEIGHT) blank_game 0 0 = Checked.ok u :=
  ⟨⟨by decide, by decide⟩, discoverable_dfs_index_safe blank_game 0 0 (by decide) (by decide)⟩

/-! ## The direction table against the four integer offsets -/

/-- A row of the table and its integer offset name the same neighbour of an in-bounds
square, and agree on whether it lies in the grid. -/
theorem paired_neighbour {x y : Nat} (hxy : inb (x, y)) {d : Nat × Nat} {e : Int × Int}
    (hde : (d, e) ∈ paired_offsets) :
    (inb ((x + d.1) % 256, (y + d.2) % 256) ↔
      (0 ≤ (x : Int) + e.1 ∧ (x : Int) + e.1 < (WIDTH : Int) ∧
        0 ≤ (y : Int) + e.2 ∧ (y : Int) + e.2 < (HEIGHT : Int))) ∧
    (inb ((x + d.1) % 256, (y + d.2) % 256) →
      ((x : Int) + e.1).toNat = (x + d.1) % 256 ∧
        ((y : Int) + e.2).toNat = (y + d.2) % 256) := by
  obtain ⟨d1, d2⟩ := d
  obtain ⟨e1, e2⟩ := e
  simp only [inb, WIDTH, HEIGHT] at hxy ⊢
  simp only [paired_offsets, List.mem_cons, List.mem_singleton, List.not_mem_nil, or_false,
    Prod.mk.injEq] at hde
  rcases hde with ⟨⟨h1, h2⟩, h3, h4⟩ | ⟨⟨h1, h2⟩, h3, h4⟩ | ⟨⟨h1, h2⟩, h3, h4⟩ |
    ⟨⟨h1, h2⟩, h3, h4⟩ <;>
  · subst h1 h2 h3 h4
    simp only [Nat.cast_ofNat]
    omega

theorem ref_step_eq {visitR visit : Game → Nat → Nat → Option Game}
    (hv : ∀ t a b, inb (a, b) → visitR t a b = visit t a b) {x y : Nat} (hxy : inb (x, y))
    (s : Game) {d : Nat × Nat} {e : Int × Int} (hde : (d, e) ∈ paired_offsets) :
    ref_step visitR x y s e = dfs_step visit x y s d := by
  obtain ⟨hiff, heq⟩ := paired_neighbour hxy hde
  unfold ref_step dfs_step
  by_cases hin : inb ((x + d.1) % 256, (y + d.2) % 256)
  · obtain ⟨hx1, hy1⟩ := heq hin
    have hr := hiff.1 hin
    by_cases h0 : s.visible ((x + d.1) % 256) ((y + d.2) % 256) = 0
    · have hc : 0 ≤ (x : Int) + e.1 ∧ (x : Int) + e.1 < (WIDTH : Int) ∧
          0 ≤ (y : Int) + e.2 ∧ (y : Int) + e.2 < (HEIGHT : Int) ∧
          s.visible ((x : Int) + e.1).toNat ((y : Int) + e.2).toNat = 0 := by
        rw [hx1, hy1]; exact ⟨hr.1, hr.2.1, hr.2.2.1, hr.2.2.2, h0⟩
      simp only [if_pos hc, if_pos (And.intro ((in_bounds_ne_zero _ _).2 hin) h0)]
      rw [hx1, hy1]
      exact hv s _ _ hin
    · have hc : ¬ (0 ≤ (x : Int) + e.1 ∧ (x : Int) + e.1 < (WIDTH : Int) ∧
          0 ≤ (y : Int) + e.2 ∧ (y : Int) + e.2 < (HEIGHT : Int) ∧
          s.visible ((x : Int) + e.1).toNat ((y : Int) + e.2).toNat = 0) := by
        rw [hx1, hy1]; exact fun h => h0 h.2.2.2.2
      have hg : ¬ (in_bounds ((x + d.1) % 256) ((y + d.2) % 256) ≠ 0 ∧
          s.visible ((x + d.1) % 256) ((y + d.2) % 256) = 0) := fun h => h0 h.2
      simp only [if_neg hc, if_neg hg]
  · have hc : ¬ (0 ≤ (x : Int) + e.1 ∧ (x : Int) + e.1 < (WIDTH : Int) ∧
        0 ≤ (y : Int) + e.2 ∧ (y : Int) + e.2 < (HEIGHT : Int) ∧
        s.visible ((x : Int) + e.1).toNat ((y : Int) + e.2).toNat = 0) :=
      fun h => hin (hiff.2 ⟨h.1, h.2.1, h.2.2.1, h.2.2.2.1⟩)
    have hg : ¬ (in_bounds ((x + d.1) % 256) ((y + d.2) % 256) ≠ 0 ∧
        s.visible ((x + d.1) % 256) ((y + d.2) % 256) = 0) :=
      fun h => hin ((in_bounds_ne_zero _ _).1 h.1)
    simp only [if_neg hc, if_neg hg]

theorem ref_loop_eq {visitR visit : Game → Nat → Nat → Option Game}
    (hv : ∀ t a b, inb (a, b) → visitR t a b = visit t a b) {x y : Nat} (hxy : inb (x, y)) :
    ∀ (ps : List ((Nat × Nat) × (Int × Int))), (∀ p ∈ ps, p ∈ paired_offsets) →
      ∀ s : Game, ref_loop visitR x y (ps.map Prod.snd) s =
        dfs_loop visit x y (ps.map Prod.fst) s := by
  intro ps
  induction ps with
  | nil => intro _ s; rfl
  | cons p ps ih =>
    intro hps s
    have hp : (p.1, p.2) ∈ paired_offsets := hps p (List.mem_cons_self p ps)
    simp only [List.map_cons, ref_loop, dfs_loop]
    rw [ref_step_eq hv hxy s hp]
    cases dfs_step visit x y s p.1 with
    | none => rfl
    | some s1 => exact ih (fun q hq => hps q (List.mem_cons_of_mem p hq)) s1

theorem dfs_loop_append (visit : Game → Nat → Nat → Option Game) (x y : Nat)
    (es : List (Nat × Nat)) : ∀ (ds : List (Nat × Nat)) (s : Game),
    dfs_loop visit x y (ds ++ es) s =
      match dfs_loop visit x y ds s with
      | none => none
      | some t => dfs_loop visit x y es t := by
  intro ds
  induction ds with
  | nil => intro s; rfl
  | cons d ds ih =>
    intro s
    simp only [List.cons_append, dfs_loop]
    cases dfs_step visit x y s d with
    | none => rfl
    | some s1 => exact ih s1

theorem dfs_loop_flags_kept {visit : Game → Nat → Nat → Option Game}
    (hv : ∀ t a b u, inb (a, b) → visit t a b = some u →
      ∀ i j, t.visible i j ≠ 0 → u.visible i j ≠ 0) (x y : Nat) :
    ∀ (ds : List (Nat × Nat)) (t u : Game), dfs_loop visit x y ds t = some u →
      ∀ i j, t.visible i j ≠ 0 → u.visible i j ≠ 0 := by
  intro ds
  induction ds with
  | nil =>
    intro t u h i j hij
    have : t = u := Option.some.inj h
    rw [← this]; exact hij
  | cons d ds ih =>
    intro t u h i j hij
    simp only [dfs_loop] at h
    cases hs : dfs_step visit x y t d with
    | none => rw [hs] at h; exact absurd h (by simp)
    | some t1 =>
      rw [hs] at h
      refine ih t1 u h i j ?_
      unfold dfs_step at hs
      by_cases hg : in_bounds ((x + d.1) % 256) ((y + d.2) % 256) ≠ 0 ∧
          t.visible ((x + d.1) % 256) ((y + d.2) % 256) = 0
      · simp only [if_pos hg] at hs
        exact hv t _ _ t1 ((in_bounds_ne_zero _ _).1 hg.1) hs i j hij
      · simp only [if_neg hg] at hs
        have : t = t1 := Option.some.inj hs
        rw [← this]; exact hij

theorem dfs_ref_succ (fuel : Nat) (s : Game) (x y : Nat) :
    dfs_ref (fuel + 1) s x y =
      if get_object_at s x y = EMPTY_SQUARE ∨ get_object_at s x y = DIAMOND then
        ref_loop (dfs_ref fuel) x y four_offsets (entered s x y)
      else some (entered s x y) := rfl

/-- The search over the 8-row table and the reference search over the four integer offsets
return the same, at every recursion depth. -/
theorem dfs_ref_eq : ∀ (fuel : Nat) (s : Game) (x y : Nat), inb (x, y) →
    dfs_ref fuel s x y = dfs fuel s x y := by
  intro fuel
  induction fuel with
  | zero => intro s x y _; rfl
  | succ fuel ih =>
    intro s x y hxy
    rw [dfs_ref_succ, dfs_succ]
    by_cases ho : get_object_at s x y = EMPTY_SQUARE ∨ get_object_at s x y = DIAMOND
    · rw [if_pos ho, if_pos ho]
      have h4 : ref_loop (dfs_ref fuel) x y four_offsets (entered s x y) =
          dfs_loop (dfs fuel) x y (paired_offsets.map Prod.fst) (entered s x y) :=
        ref_loop_eq (fun t a b hab => ih t a b hab) hxy paired_offsets (fun _ h => h) _
      have hd : directions =
          paired_offsets.map Prod.fst ++ [(0, 0), (0, 0), (0, 0), (0, 0)] := rfl
      rw [h4, hd, dfs_loop_append]
      cases hl : dfs_loop (dfs fuel) x y (paired_offsets.map Prod.fst) (entered s x y) with
      | none => rfl
      | some t =>
        have hkept := @dfs_loop_flags_kept (dfs fuel)
          (fun t a b u hab hrun i j hij => by
            obtain ⟨l, hg, _⟩ := run_grown hab hrun
            exact hg.flags_kept hij)
          x y _ _ t hl x y
        have h1 : (entered s x y).visible x y ≠ 0 := by
          show write s.visible x y 1 x y ≠ 0
          unfold write; rw [if_pos ⟨rfl, rfl⟩]; exact Nat.one_ne_zero
        have ht := hkept h1
        show some t = dfs_loop (dfs fuel) x y [(0, 0), (0, 0), (0, 0), (0, 0)] t
        rw [dfs_loop_skip]
        intro d hd hg
        simp only [List.mem_cons, List.mem_singleton, List.not_mem_nil, or_false,
          or_self] at hd
        rw [hd] at hg
        have hx0 : (x + 0) % 256 = x := by
          have := hxy.1
          simp only [WIDTH] at this
          omega
        have hy0 : (y + 0) % 256 = y := by
          have := hxy.2
          simp only [HEIGHT] at this
          omega
        have h0 := hg.2
        simp only [hx0, hy0] at h0
        exact ht h0
    · rw [if_neg ho, if_neg ho]

/-- C18. The 8-entry direction table behaves as 4 orthogonal directions: for every grid,
every array of flags and every in-bounds seed, the search as written, over the
`NUM_DIRECTIONS = 8` rows of the `uint8_t` table (rows 4 to 7 zero, `-1` stored as 255,
neighbours truncated to `uint8_t`), and the reference search over the integer offsets
`(0, 1)`, `(0, -1)`, `(1, 0)`, `(-1, 0)`, which skips neighbours outside the grid, return the
same state at every recursion depth, hence the same final `visible` and the same sequence of
render calls. -/
theorem direction_table_refines (s : Game) (x y : Nat) (hx : x < WIDTH) (hy : y < HEIGHT) :
    (∀ fuel, dfs fuel s x y = dfs_ref fuel s x y) ∧
    (∃ u, discoverable_dfs s x y = some u ∧ dfs_ref (WIDTH * HEIGHT) s x y = some u) ∧
    (∀ u w, discoverable_dfs s x y = some u → dfs_ref (WIDTH * HEIGHT) s x y = some w →
      w.visible = u.visible ∧ w.display = u.display) ∧
    directions.length = NUM_DIRECTIONS ∧ NUM_DIRECTIONS = 8 := by
  have hxy : inb (x, y) := ⟨hx, hy⟩
  refine ⟨fun fuel => (dfs_ref_eq fuel s x y hxy).symm, ?_, ?_, rfl, rfl⟩
  · obtain ⟨u, _, hrun, _, _⟩ := discoverable_dfs_spec s hxy
    refine ⟨u, hrun, ?_⟩
    rw [dfs_ref_eq _ s x y hxy]
    exact hrun
  · intro u w hu hw
    rw [dfs_ref_eq _ s x y hxy] at hw
    have h2 : dfs (WIDTH * HEIGHT) s x y = some u := hu
    rw [h2] at hw
    have : u = w := Option.some.inj hw
    rw [this]
    exact ⟨rfl, rfl⟩

theorem direction_table_refines_witness :
    (0 < WIDTH ∧ 7 < HEIGHT) ∧
    (∀ fuel, dfs fuel layout_game 0 7 = dfs_ref fuel layout_game 0 7) ∧
    (∃ u, discoverable_dfs layout_game 0 7 = some u ∧
      dfs_ref (WIDTH * HEIGHT) layout_game 0 7 = some u) ∧
    (∀ u w, discoverable_dfs layout_game 0 7 = some u →
      dfs_ref (WIDTH * HEIGHT) layout_game 0 7 = some w →
      w.visible = u.visible ∧ w.display = u.display) ∧
    directions.length = NUM_DIRECTIONS ∧ NUM_DIRECTIONS = 8 :=
  ⟨⟨by decide, by decide⟩, direction_table_refines layout_game 0 7 (by decide) (by decide)⟩

end DiamondMiners
